import Mathlib

/-!
gosets: the generic hash set of package hashset

A verification development for src/hashset/hashset.go.

The Go type `Set[T]` wraps a `map[T]struct{}`.  The map is embedded as the
list of its entries, in the order in which a `for k := range m` loop visits
them.  Every statement below is quantified over all such lists, hence over
every visiting order.

Keys are compared with Go's `==`, which on a `comparable` type need not be
reflexive: a float NaN is `==` to nothing, itself included.  Such a key is
never found by a lookup, is added again by every store and is not removed by
`delete`, so a map may hold it several times.  `Comparable.selfEq v` is the
Go expression `v == v`; two values that are `==` to themselves are `==`
exactly when they are the same value of `T` (values that `==` identifies, such
as the two float zeros, are one value of `T`).  The entries of a map are
pairwise not `==`.

Methods that mutate their receiver return the new receiver next to their
result.  A set is one built by `New` or by the methods: the zero value of the
struct, whose map is nil, is outside the model, as it is outside the
specification.  Lengths are natural numbers: a Go `int` cannot overflow on the
length of a map held in memory, nor on the sum of two such lengths.
-/

set_option autoImplicit false
set_option linter.unusedSectionVars false

namespace hashset

/-- The Go constraint `comparable`, as far as `==` goes: `selfEq v` is the
value of `v == v`, false for a float NaN and for whatever holds one. -/
class Comparable (T : Type) where
  selfEq : T → Bool

/-- Go `a == b` on a comparable type. -/
def goEq {T : Type} [DecidableEq T] [Comparable T] (a b : T) : Bool :=
  Comparable.selfEq a && decide (a = b)

/-- Go `int` keys, for the values the examples use: every one is `==` to
itself. -/
instance : Comparable Nat := ⟨fun _ => true⟩

/-- Go `float64` keys as far as `==` goes: NaN, or a number. -/
inductive F64 where
  | NaN : F64
  | num : Nat → F64
  deriving DecidableEq

/-- On `float64`, NaN is the value that is not `==` to itself. -/
instance : Comparable F64 :=
  ⟨fun v => match v with
    | F64.NaN => false
    | F64.num _ => true⟩

/-- The Go builtin `map[T]struct{}`: its entries in visiting order, pairwise
not `==`.  The value type `struct{}` carries no information. -/
structure GoMap (T : Type) [DecidableEq T] [Comparable T] where
  keys : List T
  distinct : keys.Pairwise (fun a b => goEq a b = false)

namespace GoMap

variable {T : Type} [DecidableEq T] [Comparable T]

/-- Go `make(map[T]struct{}, n)`: an empty map; the size hint is not observable. -/
def make (_hint : Nat) : GoMap T := ⟨[], List.Pairwise.nil⟩

/-- Go `_, ok := m[k]`: whether some entry is `==` to `k`. -/
def lookup (m : GoMap T) (k : T) : Bool := m.keys.any (fun x => goEq x k)

/-- Go `m[k] = struct{}{}`: a new entry unless some entry is `==` to `k`; in
that case the value, which carries nothing, is overwritten and the entries stay
as they are (Insert stores only after a failed lookup and never gets there). -/
def store (m : GoMap T) (k : T) : GoMap T :=
  if h : m.lookup k = true then m
  else ⟨m.keys ++ [k], List.pairwise_append.2 ⟨m.distinct, List.pairwise_singleton _ k,
    (by
      intro a ha b hb
      have hbk : b = k := by simpa using hb
      subst hbk
      cases hab : goEq a b with
      | false => rfl
      | true => exact absurd (List.any_eq_true.2 ⟨a, ha, hab⟩) h)⟩⟩

/-- Go `delete(m, k)`: drops the entry that is `==` to `k`, if there is one. -/
def delete (m : GoMap T) (k : T) : GoMap T :=
  ⟨m.keys.filter (fun x => !goEq x k), m.distinct.filter _⟩

/-- Go `len(m)`. -/
def len (m : GoMap T) : Nat := m.keys.length

end GoMap

/-- The struct `Set[T]` of hashset.go, lines 11-13. -/
structure Set (T : Type) [DecidableEq T] [Comparable T] where
  inner : GoMap T

namespace Set

variable {T : Type} [DecidableEq T] [Comparable T]

/-- Method `Contains`, hashset.go lines 55-58. -/
def Contains (s : Set T) (val : T) : Bool := s.inner.lookup val

/-- Method `Len`, hashset.go lines 164-166. -/
def Len (s : Set T) : Nat := s.inner.len

/-- Method `Insert`, hashset.go lines 28-34: the returned flag and the receiver
after the call. -/
def Insert (s : Set T) (val : T) : Bool × Set T :=
  if s.Contains val then (false, s)
  else (true, ⟨s.inner.store val⟩)

/-- The loop `for _, k := range ks { s.Insert(k) }`, shared by New, Merge and
Union. -/
def insertAll (s : Set T) (ks : List T) : Set T :=
  ks.foldl (fun acc k => (acc.Insert k).2) s

/-- Function `New`, hashset.go lines 16-24. -/
def New (elems : List T) : Set T :=
  insertAll ⟨GoMap.make elems.length⟩ elems

/-- Method `Merge`, hashset.go lines 37-41: the receiver after the call. -/
def Merge (s o : Set T) : Set T :=
  insertAll s o.inner.keys

/-- Method `Remove`, hashset.go lines 45-52: the returned flag and the receiver
after the call. -/
def Remove (s : Set T) (val : T) : Bool × Set T :=
  let present := if s.Contains val then true else false
  (present, ⟨s.inner.delete val⟩)

/-- Method `Diff`, hashset.go lines 78-87. -/
def Diff (s o : Set T) : Set T :=
  s.inner.keys.foldl
    (fun diff k => if o.Contains k then diff else (diff.Insert k).2)
    (New [])

/-- Method `SymDiff`, hashset.go lines 90-94. -/
def SymDiff (s o : Set T) : Set T :=
  let diff := s.Diff o
  diff.Merge (o.Diff s)

/-- Method `Intersect`, hashset.go lines 98-107. -/
def Intersect (s o : Set T) : Set T :=
  s.inner.keys.foldl
    (fun intersect k => if !o.Contains k then intersect else (intersect.Insert k).2)
    (New [])

/-- The operand that Union seeds its result from (`s1`) and the other one
(`s2`), hashset.go lines 115-119. -/
def unionOperands (s o : Set T) : Set T × Set T :=
  if s.Len < o.Len then (o, s) else (s, o)

/-- Method `Union`, hashset.go lines 111-130. -/
def Union (s o : Set T) : Set T :=
  let s1 := (unionOperands s o).1
  let s2 := (unionOperands s o).2
  let diff := s2.Diff s1
  let union : Set T := ⟨GoMap.make (s1.Len + diff.Len)⟩
  let union := insertAll union s1.inner.keys
  insertAll union diff.inner.keys

/-- The loop of `Disjoint`, hashset.go lines 134-139. -/
def disjointLoop (o : Set T) : List T → Bool
  | [] => true
  | k :: ks => if o.Contains k then false else disjointLoop o ks

/-- Method `Disjoint`, hashset.go lines 133-140. -/
def Disjoint (s o : Set T) : Bool := disjointLoop o s.inner.keys

/-- The loop shared by `Subset` (lines 149-154) and `Equal` (lines 181-186):
false at the first key that `o` lacks, true when the keys run out. -/
def allContained (o : Set T) : List T → Bool
  | [] => true
  | k :: ks => if !o.Contains k then false else allContained o ks

/-- Method `Subset`, hashset.go lines 144-155. -/
def Subset (s o : Set T) : Bool :=
  if s.Len > o.Len then false
  else allContained o s.inner.keys

/-- Method `Superset`, hashset.go lines 159-161. -/
def Superset (s o : Set T) : Bool := o.Subset s

/-- Method `Clear`, hashset.go lines 170-174: the receiver after the call. -/
def Clear (s : Set T) : Set T :=
  s.inner.keys.foldl (fun acc k => ⟨acc.inner.delete k⟩) s

/-- Method `Equal`, hashset.go lines 177-187. -/
def Equal (s o : Set T) : Bool :=
  if s.Len != o.Len then false
  else allContained o s.inner.keys

end Set

namespace Set

variable {T : Type} [DecidableEq T] [Comparable T]

/-- The loop of `Elems`, hashset.go lines 68-72: the slice and the index `i`
after visiting the keys `ks`.  Writing to a slice goes through `List.set`. -/
def elemsLoop (ks : List T) (elems : List T) (i : Nat) : List T × Nat :=
  ks.foldl (fun st k => (st.1.set st.2 k, st.2 + 1)) (elems, i)

/-- Method `Elems`, hashset.go lines 63-74.  The result is a Go slice: `none`
is the nil slice, and `zero` is the zero value of `T` that `make([]T, n)`
fills the fresh slice with. -/
def Elems (s : Set T) (zero : T) : Option (List T) :=
  if s.Len == 0 then none
  else
    let elems := List.replicate s.inner.len zero
    some (elemsLoop s.inner.keys elems 0).1

/-- The elements of a Go slice; the nil slice has none. -/
def sliceElems (sl : Option (List T)) : List T := sl.getD []

/-- The loop of `String`, hashset.go lines 194-200: the builder contents and
the index `i` after visiting the keys `ks` of a map of length `n`.  `render`
is `fmt.Sprintf("%v", k)`. -/
def stringLoop (render : T → String) (n : Nat) (ks : List T) (sb : String) (i : Nat) :
    String × Nat :=
  ks.foldl
    (fun st k =>
      let sb1 := st.1 ++ render k
      let sb2 := if (st.2 : Int) < (n : Int) - 1 then sb1.push ',' else sb1
      (sb2, st.2 + 1))
    (sb, i)

/-- The size that `Union` passes to `make` before inserting anything,
hashset.go line 122: `s1.Len()+diff.Len()`. -/
def unionHint (s o : Set T) : Nat :=
  let s1 := (unionOperands s o).1
  let s2 := (unionOperands s o).2
  let diff := s2.Diff s1
  s1.Len + diff.Len

end Set

/-- Method `String`, hashset.go lines 190-203, with `render` standing for
`fmt.Sprintf("%v", k)`. -/
def Set.String {T : Type} [DecidableEq T] [Comparable T] (s : Set T) (render : T → String) : String :=
  let sb := "".push '\x7b'
  let st := Set.stringLoop render s.inner.len s.inner.keys sb 0
  st.1.push '\x7d'

/-- The rendering that the specification describes for `String`: the pieces
joined by single commas, with no comma before the first or after the last. -/
def commaJoined : List String → String
  | [] => ""
  | [a] => a
  | a :: b :: rest => a ++ "," ++ commaJoined (b :: rest)

/-! ### Sets behind pointers

The methods take `*Set[T]` receivers and arguments.  To state which sets a call
writes to, the Set structs live in a store addressed by natural numbers; a
pointer is an address below `next`, and allocation takes the address `next`.
A range loop visits the entries that the map holds when the loop starts.  In
every call but one the map that a loop ranges over is not written to while the
loop runs, so this is what Go does; the exception is `a.Merge(a)` on a set
holding a NaN, where Go may also visit entries that the loop itself has added,
and the set grows at least as much as it does here. -/

/-- The store of Set structs that pointers of type `*Set[T]` refer to. -/
structure Heap (T : Type) [DecidableEq T] [Comparable T] where
  cells : Nat → Set T
  next : Nat

namespace Heap

variable {T : Type} [DecidableEq T] [Comparable T]

/-- A store with nothing allocated. -/
def empty : Heap T := ⟨fun _ => ⟨GoMap.make 0⟩, 0⟩

/-- Assignment through the pointer `p`. -/
def write (h : Heap T) (p : Nat) (s : Set T) : Heap T :=
  ⟨Function.update h.cells p s, h.next⟩

/-- Go `&Set[T]{inner: m}`: a fresh struct and the pointer to it. -/
def alloc (h : Heap T) (s : Set T) : Nat × Heap T :=
  (h.next, ⟨Function.update h.cells h.next s, h.next + 1⟩)

/-- Method `Insert` on the pointer `s`, hashset.go lines 28-34. -/
def Insert (h : Heap T) (s : Nat) (val : T) : Bool × Heap T :=
  if (h.cells s).Contains val then (false, h)
  else (true, h.write s ⟨(h.cells s).inner.store val⟩)

/-- The loop `for _, k := range ks { s.Insert(k) }` on the pointer `s`. -/
def insertAll (h : Heap T) (s : Nat) (ks : List T) : Heap T :=
  ks.foldl (fun acc k => (acc.Insert s k).2) h

/-- Function `New`, hashset.go lines 16-24: the new pointer and the store. -/
def New (h : Heap T) (elems : List T) : Nat × Heap T :=
  let a := h.alloc ⟨GoMap.make elems.length⟩
  (a.1, a.2.insertAll a.1 elems)

/-- Method `Merge` on pointers, hashset.go lines 37-41. -/
def Merge (h : Heap T) (s o : Nat) : Heap T :=
  h.insertAll s (h.cells o).inner.keys

/-- The loop of `Diff` (lines 80-85) when `skipIfIn` is true and of `Intersect`
(lines 100-105) when it is false, on pointers: `d` is the set being filled. -/
def filterLoop (skipIfIn : Bool) (o d : Nat) (h : Heap T) (ks : List T) : Heap T :=
  ks.foldl
    (fun acc k =>
      if (acc.cells o).Contains k = skipIfIn then acc else (acc.Insert d k).2)
    h

/-- Method `Diff` on pointers, hashset.go lines 78-87. -/
def Diff (h : Heap T) (s o : Nat) : Nat × Heap T :=
  let d := h.New []
  (d.1, filterLoop true o d.1 d.2 (d.2.cells s).inner.keys)

/-- Method `SymDiff` on pointers, hashset.go lines 90-94. -/
def SymDiff (h : Heap T) (s o : Nat) : Nat × Heap T :=
  let d := h.Diff s o
  let e := d.2.Diff o s
  (d.1, e.2.Merge d.1 e.1)

/-- Method `Intersect` on pointers, hashset.go lines 98-107. -/
def Intersect (h : Heap T) (s o : Nat) : Nat × Heap T :=
  let d := h.New []
  (d.1, filterLoop false o d.1 d.2 (d.2.cells s).inner.keys)

/-- Method `Union` on pointers, hashset.go lines 111-130. -/
def Union (h : Heap T) (s o : Nat) : Nat × Heap T :=
  let s1 := if (h.cells s).Len < (h.cells o).Len then o else s
  let s2 := if (h.cells s).Len < (h.cells o).Len then s else o
  let d := h.Diff s2 s1
  let u := d.2.alloc ⟨GoMap.make ((d.2.cells s1).Len + (d.2.cells d.1).Len)⟩
  let h1 := u.2.insertAll u.1 (u.2.cells s1).inner.keys
  (u.1, h1.insertAll u.1 (h1.cells d.1).inner.keys)

end Heap

/-- A store holding New([1,2,3]) at address 0 and New([2,3,4]) at address 1. -/
def exampleHeap : Heap Nat :=
  ((Heap.empty.New [1, 2, 3]).2.New [2, 3, 4]).2

/-- A store holding New([]float64{NaN}) at address 0. -/
def nanHeap : Heap F64 :=
  (Heap.empty.New [F64.NaN]).2

/-- The set New([]float64{NaN}). -/
def nanSet : Set F64 := Set.New [F64.NaN]

/-- The values that a set contains, as a finite set: what `Contains`
observes.  Entries that are not `==` to themselves are left out. -/
def Set.toFinset {T : Type} [DecidableEq T] [Comparable T] (s : Set T) : Finset T :=
  (s.inner.keys.filter Comparable.selfEq).toFinset

/-- The number of entries of a set that are not `==` to themselves. -/
def Set.nanCount {T : Type} [DecidableEq T] [Comparable T] (s : Set T) : Nat :=
  (s.inner.keys.filter (fun k => !Comparable.selfEq k)).length

/-- Whether every element that a set holds is `==` to itself, that is,
whether the set is free of NaN. -/
def Set.allSelfEq {T : Type} [DecidableEq T] [Comparable T] (s : Set T) : Bool :=
  s.inner.keys.all Comparable.selfEq

/-! ## Basic facts about the map primitives and the shared loops -/

namespace Set

variable {T : Type} [DecidableEq T] [Comparable T]

theorem goEq_iff (a b : T) : goEq a b = true ↔ Comparable.selfEq a = true ∧ a = b := by
  simp [goEq]

theorem lookup_iff (m : GoMap T) (k : T) :
    m.lookup k = true ↔ k ∈ m.keys ∧ Comparable.selfEq k = true := by
  unfold GoMap.lookup
  rw [List.any_eq_true]
  constructor
  · rintro ⟨x, hx, hxk⟩
    obtain ⟨h1, rfl⟩ := (goEq_iff x k).1 hxk
    exact ⟨hx, h1⟩
  · rintro ⟨hk, hs⟩
    exact ⟨k, hk, (goEq_iff k k).2 ⟨hs, rfl⟩⟩

theorem contains_iff (s : Set T) (v : T) :
    s.Contains v = true ↔ v ∈ s.inner.keys ∧ Comparable.selfEq v = true :=
  lookup_iff s.inner v

theorem contains_eq_false_iff (s : Set T) (v : T) :
    s.Contains v = false ↔ ¬ (v ∈ s.inner.keys ∧ Comparable.selfEq v = true) := by
  rw [← contains_iff]
  simp

theorem contains_of_selfEq_false (s : Set T) (v : T) (h : Comparable.selfEq v = false) :
    s.Contains v = false := by
  rw [contains_eq_false_iff]
  rintro ⟨_, h2⟩
  rw [h] at h2
  exact absurd h2 (by decide)

theorem mem_toFinset (s : Set T) (v : T) : v ∈ s.toFinset ↔ s.Contains v = true := by
  simp [toFinset, contains_iff]

theorem filter_selfEq_nodup (s : Set T) : (s.inner.keys.filter Comparable.selfEq).Nodup := by
  have h := s.inner.distinct.filter Comparable.selfEq
  refine List.Pairwise.imp_of_mem ?_ h
  intro a b ha _ hab heq
  have hsa : Comparable.selfEq a = true := (List.mem_filter.1 ha).2
  have : goEq a b = true := (goEq_iff a b).2 ⟨hsa, heq⟩
  rw [hab] at this
  exact absurd this (by decide)

/-- The length of a set counts the values it contains plus its entries that
are not `==` to themselves. -/
theorem len_eq (s : Set T) : s.Len = s.toFinset.card + s.nanCount := by
  unfold Len GoMap.len toFinset nanCount
  rw [List.toFinset_card_of_nodup (filter_selfEq_nodup s)]
  exact List.length_eq_length_filter_add _

theorem nanCount_eq_zero_iff (s : Set T) :
    s.nanCount = 0 ↔ ∀ k ∈ s.inner.keys, Comparable.selfEq k = true := by
  unfold nanCount
  rw [List.length_eq_zero, List.filter_eq_nil_iff]
  simp

theorem allSelfEq_iff (s : Set T) :
    s.allSelfEq = true ↔ ∀ k ∈ s.inner.keys, Comparable.selfEq k = true := by
  unfold allSelfEq
  rw [List.all_eq_true]

theorem nanCount_of_allSelfEq (s : Set T) (h : s.allSelfEq = true) : s.nanCount = 0 :=
  (nanCount_eq_zero_iff s).2 ((allSelfEq_iff s).1 h)

theorem len_eq_card (s : Set T) (h : s.allSelfEq = true) : s.Len = s.toFinset.card := by
  rw [len_eq, nanCount_of_allSelfEq s h, Nat.add_zero]

theorem insert_keys (s : Set T) (k : T) :
    (s.Insert k).2.inner.keys
      = if s.Contains k = true then s.inner.keys else s.inner.keys ++ [k] := by
  unfold Insert
  cases hc : s.Contains k
  · have hl : ¬ s.inner.lookup k = true := by
      have : s.inner.lookup k = false := hc
      simp [this]
    simp [GoMap.store, hl]
  · simp

theorem mem_insert (s : Set T) (k v : T) :
    v ∈ (s.Insert k).2.inner.keys ↔ v ∈ s.inner.keys ∨ v = k := by
  rw [insert_keys]
  split
  · next h =>
    constructor
    · exact Or.inl
    · rintro (hv | rfl)
      · exact hv
      · exact ((contains_iff s v).1 h).1
  · simp

theorem contains_insert (s : Set T) (k x : T) :
    (s.Insert k).2.Contains x = (s.Contains x || goEq k x) := by
  rw [Bool.eq_iff_iff, Bool.or_eq_true, contains_iff, contains_iff, mem_insert, goEq_iff]
  constructor
  · rintro ⟨hx | rfl, hs⟩
    · exact Or.inl ⟨hx, hs⟩
    · exact Or.inr ⟨hs, rfl⟩
  · rintro (⟨hx, hs⟩ | ⟨hs, rfl⟩)
    · exact ⟨Or.inl hx, hs⟩
    · exact ⟨Or.inr rfl, hs⟩

theorem mem_insertAll (ks : List T) (s : Set T) (v : T) :
    v ∈ (insertAll s ks).inner.keys ↔ v ∈ s.inner.keys ∨ v ∈ ks := by
  induction ks generalizing s with
  | nil => simp [insertAll]
  | cons k ks ih =>
    have step : insertAll s (k :: ks) = insertAll (s.Insert k).2 ks := rfl
    rw [step, ih, mem_insert]
    simp only [List.mem_cons]
    tauto

theorem mem_new (elems : List T) (v : T) :
    v ∈ (New elems).inner.keys ↔ v ∈ elems := by
  unfold New
  rw [mem_insertAll]
  simp [GoMap.make]

/-- The loop of Diff and of Intersect: keys passing the test `skip` are passed
over, the others are inserted. -/
theorem mem_foldl_skip (skip : T → Bool) (ks : List T) (d : Set T) (v : T) :
    v ∈ (ks.foldl (fun acc k => if skip k then acc else (acc.Insert k).2) d).inner.keys
      ↔ v ∈ d.inner.keys ∨ (v ∈ ks ∧ skip v = false) := by
  induction ks generalizing d with
  | nil => simp
  | cons k ks ih =>
    rw [List.foldl_cons, ih]
    by_cases hk : skip k = true
    · simp only [hk, if_true, List.mem_cons]
      constructor
      · rintro (h | ⟨h, hs⟩)
        · exact Or.inl h
        · exact Or.inr ⟨Or.inr h, hs⟩
      · rintro (h | ⟨h | h, hs⟩)
        · exact Or.inl h
        · subst h
          rw [hk] at hs
          exact absurd hs (by decide)
        · exact Or.inr ⟨h, hs⟩
    · have hk2 : skip k = false := by simpa using hk
      simp only [hk2, Bool.false_eq_true, if_false, List.mem_cons, mem_insert]
      constructor
      · rintro ((h | h) | ⟨h, hs⟩)
        · exact Or.inl h
        · exact Or.inr ⟨Or.inl h, h ▸ hk2⟩
        · exact Or.inr ⟨Or.inr h, hs⟩
      · rintro (h | ⟨h | h, hs⟩)
        · exact Or.inl (Or.inl h)
        · exact Or.inl (Or.inr h)
        · exact Or.inr ⟨h, hs⟩

theorem mem_diff (s o : Set T) (v : T) :
    v ∈ (s.Diff o).inner.keys ↔ v ∈ s.inner.keys ∧ o.Contains v = false := by
  unfold Diff
  rw [mem_foldl_skip (fun k => o.Contains k), mem_new]
  simp

theorem mem_intersect (s o : Set T) (v : T) :
    v ∈ (s.Intersect o).inner.keys ↔ v ∈ s.inner.keys ∧ o.Contains v = true := by
  unfold Intersect
  rw [mem_foldl_skip (fun k => !o.Contains k), mem_new]
  simp

theorem mem_union (s o : Set T) (v : T) :
    v ∈ (s.Union o).inner.keys ↔ v ∈ s.inner.keys ∨ v ∈ o.inner.keys := by
  have key : ∀ a b : Set T, (v ∈ a.inner.keys ∨ (v ∈ b.inner.keys ∧ a.Contains v = false))
      ↔ (v ∈ a.inner.keys ∨ v ∈ b.inner.keys) := by
    intro a b
    constructor
    · rintro (h | ⟨h, _⟩)
      · exact Or.inl h
      · exact Or.inr h
    · rintro (h | h)
      · exact Or.inl h
      · cases hc : a.Contains v with
        | false => exact Or.inr ⟨h, rfl⟩
        | true => exact Or.inl ((contains_iff a v).1 hc).1
  unfold Union unionOperands
  simp only [mem_insertAll, mem_diff]
  split
  · simp only [GoMap.make, List.not_mem_nil, false_or]
    rw [key o s]
    exact Or.comm
  · simp only [GoMap.make, List.not_mem_nil, false_or]
    exact key s o

theorem toFinset_union (s o : Set T) : (s.Union o).toFinset = s.toFinset ∪ o.toFinset := by
  ext v
  simp only [mem_toFinset, Finset.mem_union, contains_iff, mem_union]
  tauto

theorem toFinset_intersect (s o : Set T) :
    (s.Intersect o).toFinset = s.toFinset ∩ o.toFinset := by
  ext v
  simp only [mem_toFinset, Finset.mem_inter, contains_iff, mem_intersect]
  tauto

theorem toFinset_diff (s o : Set T) : (s.Diff o).toFinset = s.toFinset \ o.toFinset := by
  ext v
  simp only [mem_toFinset, Finset.mem_sdiff, contains_iff, mem_diff, contains_eq_false_iff]
  tauto

theorem toFinset_merge (a b : Set T) : (a.Merge b).toFinset = a.toFinset ∪ b.toFinset := by
  ext v
  simp only [mem_toFinset, Finset.mem_union, contains_iff, Merge, mem_insertAll]
  tauto

theorem toFinset_symDiff (a b : Set T) :
    (a.SymDiff b).toFinset = (a.toFinset \ b.toFinset) ∪ (b.toFinset \ a.toFinset) := by
  unfold SymDiff
  rw [toFinset_merge, toFinset_diff, toFinset_diff]

theorem toFinset_new (elems : List T) :
    (New elems).toFinset = (elems.filter Comparable.selfEq).toFinset := by
  ext v
  simp [mem_toFinset, contains_iff, mem_new]

/-! ### The entries of the results, as lists -/

/-- Inserting keys that are pairwise not `==` adds, in order, those that the
set does not contain yet. -/
theorem insertAll_keys (ks : List T) (s : Set T)
    (hpw : ks.Pairwise (fun a b => goEq a b = false)) :
    (insertAll s ks).inner.keys
      = s.inner.keys ++ ks.filter (fun k => !s.Contains k) := by
  induction ks generalizing s with
  | nil => simp [insertAll]
  | cons k ks ih =>
    have step : insertAll s (k :: ks) = insertAll (s.Insert k).2 ks := rfl
    have hk := List.pairwise_cons.1 hpw
    have hcongr : ks.filter (fun x => !(s.Insert k).2.Contains x)
        = ks.filter (fun x => !s.Contains x) := by
      apply List.filter_congr
      intro x hx
      rw [contains_insert, hk.1 x hx, Bool.or_false]
    rw [step, ih _ hk.2, hcongr, insert_keys]
    cases hc : s.Contains k <;> simp [hc]

/-- The loop of Diff and of Intersect, run on keys that are pairwise not `==`
and that the set being filled does not contain, keeps the keys that are not
passed over, in order. -/
theorem foldl_skip_keys (skip : T → Bool) (ks : List T) (d : Set T)
    (hpw : ks.Pairwise (fun a b => goEq a b = false))
    (hfresh : ∀ k ∈ ks, d.Contains k = false) :
    (ks.foldl (fun acc k => if skip k then acc else (acc.Insert k).2) d).inner.keys
      = d.inner.keys ++ ks.filter (fun k => !skip k) := by
  induction ks generalizing d with
  | nil => simp
  | cons k ks ih =>
    have hk := List.pairwise_cons.1 hpw
    rw [List.foldl_cons]
    cases hs : skip k
    · have hdk : d.Contains k = false := hfresh k (List.mem_cons_self k ks)
      have hfresh2 : ∀ x ∈ ks, (d.Insert k).2.Contains x = false := by
        intro x hx
        rw [contains_insert, hfresh x (List.mem_cons_of_mem k hx), hk.1 x hx]
        rfl
      simp only [Bool.false_eq_true, if_false]
      rw [ih _ hk.2 hfresh2, insert_keys]
      simp [hdk, hs]
    · simp only [if_true]
      rw [ih _ hk.2 (fun x hx => hfresh x (List.mem_cons_of_mem k hx))]
      simp [hs]

theorem contains_new_nil (x : T) : (New ([] : List T)).Contains x = false := by
  rw [contains_eq_false_iff, mem_new]
  simp

theorem diff_keys (s o : Set T) :
    (s.Diff o).inner.keys = s.inner.keys.filter (fun k => !o.Contains k) := by
  unfold Diff
  rw [foldl_skip_keys (fun k => o.Contains k) _ _ s.inner.distinct
    (fun k _ => contains_new_nil k)]
  rfl

theorem intersect_keys (s o : Set T) :
    (s.Intersect o).inner.keys = s.inner.keys.filter (fun k => o.Contains k) := by
  unfold Intersect
  rw [foldl_skip_keys (fun k => !o.Contains k) _ _ s.inner.distinct
    (fun k _ => contains_new_nil k)]
  simp only [Bool.not_not]
  rfl

theorem merge_keys (a b : Set T) :
    (a.Merge b).inner.keys
      = a.inner.keys ++ b.inner.keys.filter (fun k => !a.Contains k) :=
  insertAll_keys b.inner.keys a b.inner.distinct

/-- Union holds the entries of the operand it seeds from, followed by those
of the other operand that the first does not contain. -/
theorem union_keys (s o : Set T) :
    (s.Union o).inner.keys
      = (unionOperands s o).1.inner.keys
        ++ ((unionOperands s o).2.Diff (unionOperands s o).1).inner.keys := by
  have hempty : ∀ x, (⟨GoMap.make (unionHint s o)⟩ : Set T).Contains x = false := by
    intro x
    rw [contains_eq_false_iff]
    simp [GoMap.make]
  have h1 : (insertAll (⟨GoMap.make (unionHint s o)⟩ : Set T)
      (unionOperands s o).1.inner.keys).inner.keys = (unionOperands s o).1.inner.keys := by
    rw [insertAll_keys _ _ (unionOperands s o).1.inner.distinct]
    have hall : (unionOperands s o).1.inner.keys.filter
        (fun k => !(⟨GoMap.make (unionHint s o)⟩ : Set T).Contains k)
        = (unionOperands s o).1.inner.keys := by
      rw [List.filter_eq_self]
      intro k _
      rw [hempty k]
      rfl
    rw [hall]
    rfl
  have hc : ∀ x, (insertAll (⟨GoMap.make (unionHint s o)⟩ : Set T)
      (unionOperands s o).1.inner.keys).Contains x = (unionOperands s o).1.Contains x := by
    intro x
    rw [Bool.eq_iff_iff, contains_iff, contains_iff, h1]
  have h2 := insertAll_keys ((unionOperands s o).2.Diff (unionOperands s o).1).inner.keys
    (insertAll (⟨GoMap.make (unionHint s o)⟩ : Set T) (unionOperands s o).1.inner.keys)
    ((unionOperands s o).2.Diff (unionOperands s o).1).inner.distinct
  rw [h1] at h2
  have hf : ((unionOperands s o).2.Diff (unionOperands s o).1).inner.keys.filter
      (fun k => !(insertAll (⟨GoMap.make (unionHint s o)⟩ : Set T)
        (unionOperands s o).1.inner.keys).Contains k)
      = ((unionOperands s o).2.Diff (unionOperands s o).1).inner.keys := by
    rw [List.filter_eq_self]
    intro k hk
    rw [hc, ((mem_diff _ _ k).1 hk).2]
    rfl
  rw [hf] at h2
  exact h2

/-! ### Entries that are not `==` to themselves -/

theorem nanCount_filter (s t : Set T) (q : T → Bool)
    (hkeys : t.inner.keys = s.inner.keys.filter q)
    (hq : ∀ k, Comparable.selfEq k = false → q k = true) :
    t.nanCount = s.nanCount := by
  unfold nanCount
  rw [hkeys, List.filter_filter]
  apply congrArg
  apply List.filter_congr
  intro x _
  cases hx : Comparable.selfEq x
  · simp [hq x hx]
  · simp

theorem nanCount_diff (s o : Set T) : (s.Diff o).nanCount = s.nanCount :=
  nanCount_filter s (s.Diff o) _ (diff_keys s o)
    (fun k hk => by simp [contains_of_selfEq_false o k hk])

theorem nanCount_intersect (s o : Set T) : (s.Intersect o).nanCount = 0 := by
  rw [nanCount_eq_zero_iff]
  intro k hk
  exact ((contains_iff o k).1 ((mem_intersect s o k).1 hk).2).2

theorem nanCount_append (a b c : Set T) (q : T → Bool)
    (hkeys : c.inner.keys = a.inner.keys ++ b.inner.keys.filter q)
    (hq : ∀ k, Comparable.selfEq k = false → q k = true) :
    c.nanCount = a.nanCount + b.nanCount := by
  unfold nanCount
  rw [hkeys, List.filter_append, List.length_append, List.filter_filter]
  congr 2
  apply List.filter_congr
  intro x _
  cases hx : Comparable.selfEq x
  · simp [hq x hx]
  · simp

theorem nanCount_merge (a b : Set T) : (a.Merge b).nanCount = a.nanCount + b.nanCount :=
  nanCount_append a b (a.Merge b) _ (merge_keys a b)
    (fun k hk => by simp [contains_of_selfEq_false a k hk])

theorem nanCount_symDiff (s o : Set T) :
    (s.SymDiff o).nanCount = s.nanCount + o.nanCount := by
  unfold SymDiff
  rw [nanCount_merge, nanCount_diff, nanCount_diff]

theorem nanCount_union (s o : Set T) :
    (s.Union o).nanCount = s.nanCount + o.nanCount := by
  have h : (s.Union o).nanCount
      = (unionOperands s o).1.nanCount + (unionOperands s o).2.nanCount := by
    have hk := union_keys s o
    rw [diff_keys] at hk
    exact nanCount_append _ _ _ _ hk
      (fun k hk => by simp [contains_of_selfEq_false _ k hk])
  rw [h]
  unfold unionOperands
  split
  · exact Nat.add_comm _ _
  · rfl

/-! ### Subset, Equal and Disjoint -/

theorem allContained_iff (o : Set T) (ks : List T) :
    allContained o ks = true ↔ ∀ k ∈ ks, o.Contains k = true := by
  induction ks with
  | nil => simp [allContained]
  | cons k ks ih =>
    unfold allContained
    by_cases hk : o.Contains k = true
    · simp [hk, ih]
    · simp [hk]

theorem allContained_iff_subset (a b : Set T) :
    allContained b a.inner.keys = true ↔ a.nanCount = 0 ∧ a.toFinset ⊆ b.toFinset := by
  rw [allContained_iff, nanCount_eq_zero_iff]
  constructor
  · intro h
    refine ⟨fun k hk => ((contains_iff b k).1 (h k hk)).2, ?_⟩
    intro v hv
    rw [mem_toFinset] at hv ⊢
    exact h v ((contains_iff a v).1 hv).1
  · rintro ⟨hn, h⟩ k hk
    exact (mem_toFinset b k).1 (h ((mem_toFinset a k).2 ((contains_iff a k).2 ⟨hk, hn k hk⟩)))

theorem len_le_of_allContained (a b : Set T) (h : allContained b a.inner.keys = true) :
    a.Len ≤ b.Len := by
  obtain ⟨hn, hsub⟩ := (allContained_iff_subset a b).1 h
  have hc := Finset.card_le_card hsub
  rw [len_eq a, len_eq b, hn]
  omega

/-- The length test at the head of Subset never decides anything the loop
would not decide the same way. -/
theorem subset_eq_loop (a b : Set T) : a.Subset b = allContained b a.inner.keys := by
  unfold Subset
  split
  · next hgt =>
    cases hc : allContained b a.inner.keys with
    | false => rfl
    | true =>
      have hle := len_le_of_allContained a b hc
      exact absurd hle (by omega)
  · rfl

theorem subset_iff_toFinset (a b : Set T) :
    a.Subset b = true ↔ a.nanCount = 0 ∧ a.toFinset ⊆ b.toFinset := by
  rw [subset_eq_loop, allContained_iff_subset]

theorem equal_iff_toFinset (a b : Set T) :
    a.Equal b = true ↔ a.nanCount = 0 ∧ b.nanCount = 0 ∧ a.toFinset = b.toFinset := by
  unfold Equal
  constructor
  · intro h
    split at h
    · exact absurd h (by decide)
    · next hlen =>
      have hlen2 : a.Len = b.Len := by simpa using hlen
      obtain ⟨hn, hsub⟩ := (allContained_iff_subset a b).1 h
      have hc := Finset.card_le_card hsub
      rw [len_eq a, len_eq b, hn] at hlen2
      refine ⟨hn, by omega, Finset.eq_of_subset_of_card_le hsub (by omega)⟩
  · rintro ⟨hn, hm, h⟩
    have hlen : a.Len = b.Len := by rw [len_eq a, len_eq b, hn, hm, h]
    simp only [hlen, bne_self_eq_false, Bool.false_eq_true, if_false]
    rw [allContained_iff_subset, h]
    exact ⟨hn, Finset.Subset.refl _⟩

theorem toFinset_eq_iff (a b : Set T) :
    a.toFinset = b.toFinset ↔ ∀ v, a.Contains v = b.Contains v := by
  constructor
  · intro h v
    have h1 := mem_toFinset a v
    have h2 := mem_toFinset b v
    rw [h] at h1
    cases ha : a.Contains v <;> cases hb : b.Contains v <;> simp_all
  · intro h
    ext v
    rw [mem_toFinset, mem_toFinset, h v]

theorem disjointLoop_iff (o : Set T) (ks : List T) :
    disjointLoop o ks = true ↔ ∀ k ∈ ks, o.Contains k = false := by
  induction ks with
  | nil => simp [disjointLoop]
  | cons k ks ih =>
    unfold disjointLoop
    cases hk : o.Contains k
    · simp [ih, hk]
    · simp [hk]

theorem insert_of_contains (s : Set T) (k : T) (h : s.Contains k = true) :
    s.Insert k = (false, s) := by
  simp [Insert, h]

/-- Inserting keys that a set already contains leaves the set as it is. -/
theorem insertAll_of_contains (ks : List T) (s : Set T)
    (h : ∀ k ∈ ks, s.Contains k = true) : insertAll s ks = s := by
  induction ks with
  | nil => rfl
  | cons k ks ih =>
    have step : insertAll s (k :: ks) = insertAll (s.Insert k).2 ks := rfl
    rw [step, insert_of_contains s k (h k (List.mem_cons_self k ks))]
    exact ih (fun x hx => h x (List.mem_cons_of_mem k hx))

/-! ### The loop of Elems -/

/-- The loop of Elems overwrites the slice from index `i` on with the keys it
visits, in the order of the visit. -/
theorem elemsLoop_eq (ks : List T) (pre rest : List T) (hlen : rest.length = ks.length) :
    elemsLoop ks (pre ++ rest) pre.length = (pre ++ ks, pre.length + ks.length) := by
  induction ks generalizing pre rest with
  | nil =>
    have hr : rest = [] := List.length_eq_zero.1 hlen
    simp [elemsLoop, hr]
  | cons k ks ih =>
    cases rest with
    | nil => simp at hlen
    | cons r rest =>
      have hlen2 : rest.length = ks.length := by simpa using hlen
      have hset : (pre ++ r :: rest).set pre.length k = (pre ++ [k]) ++ rest := by
        rw [List.set_append_right _ _ (Nat.le_refl _)]
        simp
      have step : elemsLoop (k :: ks) (pre ++ r :: rest) pre.length
          = elemsLoop ks ((pre ++ r :: rest).set pre.length k) (pre.length + 1) := rfl
      have hrec := ih (pre ++ [k]) rest hlen2
      have hpl : (pre ++ [k]).length = pre.length + 1 := by simp
      rw [hpl] at hrec
      rw [step, hset, hrec]
      have h1 : pre ++ [k] ++ ks = pre ++ k :: ks := by simp
      have h2 : pre.length + 1 + ks.length = pre.length + (k :: ks).length := by
        simp only [List.length_cons]
        omega
      rw [h1, h2]

theorem elems_of_len_ne_zero (s : Set T) (zero : T) (h : s.Len ≠ 0) :
    s.Elems zero = some s.inner.keys := by
  unfold Elems
  have hb : (s.Len == 0) = false := by simpa using h
  rw [hb]
  have hl := elemsLoop_eq s.inner.keys [] (List.replicate s.inner.len zero)
    (by simp [GoMap.len])
  simp only [List.nil_append, List.length_nil] at hl
  simp [hl]

theorem elems_of_len_eq_zero (s : Set T) (zero : T) (h : s.Len = 0) :
    s.Elems zero = none := by
  have hb : (s.Len == 0) = true := by simpa using h
  have hk : s.inner.keys = [] := List.length_eq_zero.1 h
  have hd : decide (zero ∈ s.inner.keys) = false := by simp [hk]
  unfold Elems
  rw [hb]
  rfl

theorem sliceElems_elems (s : Set T) (zero : T) :
    sliceElems (s.Elems zero) = s.inner.keys := by
  by_cases h : s.Len = 0
  · rw [elems_of_len_eq_zero s zero h]
    have hk : s.inner.keys = [] := List.length_eq_zero.1 h
    simp [sliceElems, hk]
  · rw [elems_of_len_ne_zero s zero h]
    rfl

end Set

/-! ## The rendering loop of String -/

theorem push_comma (a : String) : a.push ',' = a ++ "," := by
  apply String.ext
  simp [String.data_push, String.data_append]

/-- The loop of String appends the renderings of the keys it visits, with a
comma after each one but the last. -/
theorem stringLoop_eq {T : Type} (render : T → String) (n : Nat) (ks : List T)
    (sb : String) (i : Nat) (hn : i + ks.length = n) :
    (Set.stringLoop render n ks sb i).1 = sb ++ commaJoined (ks.map render) := by
  induction ks generalizing sb i with
  | nil => simp [Set.stringLoop, commaJoined]
  | cons k ks ih =>
    cases ks with
    | nil =>
      have hlast : ¬ ((i : Int) < (n : Int) - 1) := by
        simp only [List.length_cons, List.length_nil] at hn
        omega
      simp [Set.stringLoop, commaJoined, hlast]
    | cons k2 ks2 =>
      have hmore : (i : Int) < (n : Int) - 1 := by
        simp only [List.length_cons] at hn
        omega
      have step : Set.stringLoop render n (k :: k2 :: ks2) sb i
          = Set.stringLoop render n (k2 :: ks2) ((sb ++ render k).push ',') (i + 1) := by
        simp [Set.stringLoop, hmore]
      have hn2 : i + 1 + (k2 :: ks2).length = n := by
        simp only [List.length_cons] at hn ⊢
        omega
      rw [step, ih _ _ hn2, push_comma]
      simp only [List.map_cons, commaJoined, String.append_assoc]

theorem string_eq {T : Type} [DecidableEq T] [Comparable T] (s : Set T) (render : T → String) :
    s.String render = "\x7b" ++ commaJoined (s.inner.keys.map render) ++ "\x7d" := by
  have h := stringLoop_eq render s.inner.len s.inner.keys ("".push '\x7b') 0
    (by simp [GoMap.len])
  unfold Set.String
  simp only [h]
  apply String.ext
  simp [String.data_push, String.data_append]

/-! ## Sets behind pointers: each method against its value-level form -/

namespace Heap

variable {T : Type} [DecidableEq T] [Comparable T]

theorem ext_of {h g : Heap T} (hc : h.cells = g.cells) (hn : h.next = g.next) : h = g := by
  cases h
  cases g
  simp_all

theorem write_self (h : Heap T) (p : Nat) : h.write p (h.cells p) = h :=
  ext_of (Function.update_eq_self p h.cells) rfl

theorem write_write (h : Heap T) (p : Nat) (x y : Set T) :
    (h.write p x).write p y = h.write p y :=
  ext_of (by simp [write]) rfl

theorem write_cells_same (h : Heap T) (p : Nat) (x : Set T) : (h.write p x).cells p = x := by
  simp [write]

theorem write_cells_ne (h : Heap T) {p q : Nat} (hq : q ≠ p) (x : Set T) :
    (h.write p x).cells q = h.cells q := by
  simp [write, Function.update_noteq hq]

theorem write_next (h : Heap T) (p : Nat) (x : Set T) : (h.write p x).next = h.next := rfl

theorem alloc_fst (h : Heap T) (x : Set T) : (h.alloc x).1 = h.next := rfl

theorem alloc_next (h : Heap T) (x : Set T) : (h.alloc x).2.next = h.next + 1 := rfl

theorem alloc_cells_same (h : Heap T) (x : Set T) : (h.alloc x).2.cells h.next = x := by
  simp [alloc]

theorem alloc_cells_ne (h : Heap T) {q : Nat} (hq : q ≠ h.next) (x : Set T) :
    (h.alloc x).2.cells q = h.cells q := by
  simp [alloc, Function.update_noteq hq]

theorem alloc_write (h : Heap T) (x y : Set T) :
    (h.alloc x).2.write h.next y = (h.alloc y).2 :=
  ext_of (by simp [alloc, write]) rfl

/-- Insert through a pointer writes the value-level Insert of the set it
points to, and nothing else. -/
theorem insert_eq (h : Heap T) (s : Nat) (v : T) :
    h.Insert s v = (((h.cells s).Insert v).1, h.write s ((h.cells s).Insert v).2) := by
  unfold Heap.Insert Set.Insert
  cases hc : (h.cells s).Contains v
  · simp
  · simp [write_self]

theorem insertAll_eq (ks : List T) (h : Heap T) (s : Nat) :
    h.insertAll s ks = h.write s (Set.insertAll (h.cells s) ks) := by
  induction ks generalizing h with
  | nil => exact (write_self h s).symm
  | cons k ks ih =>
    have step : h.insertAll s (k :: ks) = (h.Insert s k).2.insertAll s ks := rfl
    have pure : Set.insertAll (h.cells s) (k :: ks)
        = Set.insertAll ((h.cells s).Insert k).2 ks := rfl
    rw [step, ih, insert_eq, pure]
    simp only [write_cells_same, write_write]

theorem merge_eq (h : Heap T) (s o : Nat) :
    h.Merge s o = h.write s ((h.cells s).Merge (h.cells o)) :=
  insertAll_eq (h.cells o).inner.keys h s

theorem filterLoop_eq (b : Bool) (o d : Nat) (hod : o ≠ d) (ks : List T) (h : Heap T) :
    filterLoop b o d h ks
      = h.write d (ks.foldl
          (fun acc k => if (h.cells o).Contains k = b then acc else (acc.Insert k).2)
          (h.cells d)) := by
  induction ks generalizing h with
  | nil => exact (write_self h d).symm
  | cons k ks ih =>
    by_cases hc : (h.cells o).Contains k = b
    · have step : filterLoop b o d h (k :: ks) = filterLoop b o d h ks := by
        simp [filterLoop, hc]
      rw [step, ih]
      simp [hc]
    · have step : filterLoop b o d h (k :: ks) = filterLoop b o d (h.Insert d k).2 ks := by
        simp [filterLoop, hc]
      rw [step, ih, insert_eq]
      simp only [write_cells_same, write_write, write_cells_ne h hod, List.foldl_cons, hc,
        if_false]

theorem new_eq (h : Heap T) (elems : List T) : h.New elems = h.alloc (Set.New elems) := by
  unfold Heap.New
  simp only [insertAll_eq, alloc_fst, alloc_cells_same, alloc_write]
  rfl

theorem diff_eq (h : Heap T) (s o : Nat) (hs : s < h.next) (ho : o < h.next) :
    h.Diff s o = h.alloc ((h.cells s).Diff (h.cells o)) := by
  have hs2 : s ≠ h.next := by omega
  have ho2 : o ≠ h.next := by omega
  unfold Heap.Diff
  rw [new_eq]
  simp only [alloc_fst]
  rw [filterLoop_eq true o h.next ho2]
  simp only [alloc_cells_same, alloc_cells_ne h hs2, alloc_cells_ne h ho2, alloc_write]
  rfl

theorem intersect_eq (h : Heap T) (s o : Nat) (hs : s < h.next) (ho : o < h.next) :
    h.Intersect s o = h.alloc ((h.cells s).Intersect (h.cells o)) := by
  have hs2 : s ≠ h.next := by omega
  have ho2 : o ≠ h.next := by omega
  have hfun : (fun (acc : Set T) (k : T) =>
        if (h.cells o).Contains k = false then acc else (acc.Insert k).2)
      = (fun (acc : Set T) (k : T) =>
        if (!(h.cells o).Contains k) = true then acc else (acc.Insert k).2) := by
    funext acc k
    cases (h.cells o).Contains k <;> simp
  unfold Heap.Intersect
  rw [new_eq]
  simp only [alloc_fst]
  rw [filterLoop_eq false o h.next ho2]
  simp only [alloc_cells_same, alloc_cells_ne h hs2, alloc_cells_ne h ho2, alloc_write]
  rw [hfun]
  rfl

theorem symDiff_spec (h : Heap T) (s o : Nat) (hs : s < h.next) (ho : o < h.next) :
    (h.SymDiff s o).1 = h.next
    ∧ (h.SymDiff s o).2.cells h.next = (h.cells s).SymDiff (h.cells o)
    ∧ ∀ p, p < h.next → (h.SymDiff s o).2.cells p = h.cells p := by
  have hs2 : s ≠ h.next := by omega
  have ho2 : o ≠ h.next := by omega
  have hd : h.Diff s o = h.alloc ((h.cells s).Diff (h.cells o)) := diff_eq h s o hs ho
  have he : (h.alloc ((h.cells s).Diff (h.cells o))).2.Diff o s
      = (h.alloc ((h.cells s).Diff (h.cells o))).2.alloc ((h.cells o).Diff (h.cells s)) := by
    rw [diff_eq _ o s (by rw [alloc_next]; omega) (by rw [alloc_next]; omega),
      alloc_cells_ne h hs2, alloc_cells_ne h ho2]
  have hne : h.next ≠ h.next + 1 := by omega
  unfold Heap.SymDiff
  simp only [hd, he, merge_eq, alloc_fst, alloc_next]
  refine ⟨trivial, ?_, ?_⟩
  · rw [write_cells_same]
    have h1 := alloc_cells_ne (h.alloc ((h.cells s).Diff (h.cells o))).2
      (q := h.next) (by rw [alloc_next]; omega) ((h.cells o).Diff (h.cells s))
    have h2 := alloc_cells_same (h.alloc ((h.cells s).Diff (h.cells o))).2
      ((h.cells o).Diff (h.cells s))
    rw [alloc_next] at h2
    rw [h1, h2, alloc_cells_same]
    rfl
  · intro p hp
    have hp1 : p ≠ h.next := by omega
    rw [write_cells_ne _ hp1,
      alloc_cells_ne _ (by rw [alloc_next]; omega), alloc_cells_ne h hp1]

theorem union_spec (h : Heap T) (s o : Nat) (hs : s < h.next) (ho : o < h.next) :
    (h.Union s o).1 = h.next + 1
    ∧ (h.Union s o).2.cells (h.next + 1) = (h.cells s).Union (h.cells o)
    ∧ ∀ p, p < h.next → (h.Union s o).2.cells p = h.cells p := by
  have key : ∀ a b : Nat, a < h.next → b < h.next →
      ∀ g : Heap T,
        g = (let d := h.Diff b a
             let u := d.2.alloc ⟨GoMap.make ((d.2.cells a).Len + (d.2.cells d.1).Len)⟩
             let h1 := u.2.insertAll u.1 (u.2.cells a).inner.keys
             h1.insertAll u.1 (h1.cells d.1).inner.keys) →
        g.cells (h.next + 1)
            = Set.insertAll (Set.insertAll ⟨GoMap.make 0⟩ (h.cells a).inner.keys)
                ((h.cells b).Diff (h.cells a)).inner.keys
          ∧ ∀ p, p < h.next → g.cells p = h.cells p := by
    intro a b ha hb g hg
    have ha2 : a ≠ h.next := by omega
    have ha3 : a ≠ h.next + 1 := by omega
    have hn : h.next ≠ h.next + 1 := by omega
    subst hg
    simp only [diff_eq h b a hb ha, insertAll_eq, alloc_fst, alloc_next, write_write,
      write_cells_same]
    have c1 : ∀ (x y : Set T) (p : Nat), p ≠ h.next + 1 →
        ((h.alloc x).2.alloc y).2.cells p = (h.alloc x).2.cells p := by
      intro x y p hp
      exact alloc_cells_ne (h.alloc x).2 (by rw [alloc_next]; exact hp) y
    have c2 : ∀ (x y : Set T), ((h.alloc x).2.alloc y).2.cells (h.next + 1) = y := by
      intro x y
      have := alloc_cells_same (h.alloc x).2 y
      rwa [alloc_next] at this
    refine ⟨?_, ?_⟩
    · rw [write_cells_ne _ hn, c1 _ _ _ hn, c1 _ _ _ ha3, c2, alloc_cells_same,
        alloc_cells_ne h ha2]
      rfl
    · intro p hp
      have hp1 : p ≠ h.next := by omega
      have hp2 : p ≠ h.next + 1 := by omega
      rw [write_cells_ne _ hp2, c1 _ _ _ hp2, alloc_cells_ne h hp1]
  have hfst : (h.Union s o).1 = h.next + 1 := by
    unfold Heap.Union
    by_cases hlt : (h.cells s).Len < (h.cells o).Len
    · simp only [hlt, if_true, diff_eq h s o hs ho, alloc_fst, alloc_next]
    · simp only [hlt, if_false, diff_eq h o s ho hs, alloc_fst, alloc_next]
  refine ⟨hfst, ?_⟩
  by_cases hlt : (h.cells s).Len < (h.cells o).Len
  · have hk := key o s ho hs (h.Union s o).2 (by unfold Heap.Union; simp only [hlt, if_true])
    refine ⟨?_, hk.2⟩
    rw [hk.1]
    simp only [Set.Union, Set.unionOperands, hlt, if_true]
    rfl
  · have hk := key s o hs ho (h.Union s o).2 (by unfold Heap.Union; simp only [hlt, if_false])
    refine ⟨?_, hk.2⟩
    rw [hk.1]
    simp only [Set.Union, Set.unionOperands, hlt, if_false]
    rfl

end Heap

/-! ## Union -/

section Claims

variable {T : Type} [DecidableEq T] [Comparable T]

/-- C1: for all sets s and o and every value v, s.Union(o) contains v exactly
when s contains v or o contains v, whichever operand is the longer one; in
particular New([1,2,3]).Union(New([2,3,4])) contains exactly 1, 2, 3 and 4. -/
theorem Union_contains_iff (s o : Set T) (v : T) :
    ((s.Union o).Contains v = true ↔ (s.Contains v = true ∨ o.Contains v = true))
    ∧ (∀ n : Nat, ((Set.New [1, 2, 3]).Union (Set.New [2, 3, 4])).Contains n = true
        ↔ n ∈ [1, 2, 3, 4]) := by
  refine ⟨?_, ?_⟩
  · rw [← Set.mem_toFinset, ← Set.mem_toFinset, ← Set.mem_toFinset, Set.toFinset_union,
      Finset.mem_union]
  · intro n
    have hn : Comparable.selfEq n = true := rfl
    rw [Set.contains_iff, Set.mem_union, Set.mem_new, Set.mem_new]
    simp only [hn, and_true, List.mem_cons, List.mem_singleton, List.not_mem_nil, or_false]
    omega

/-- C2: for all sets s and o, the length of s.Union(o) is the length of s plus
the length of o minus the length of s.Intersect(o); the subtraction is taken in
the integers and never goes below zero. -/
theorem Union_len (s o : Set T) :
    ((s.Union o).Len : Int) = (s.Len : Int) + (o.Len : Int) - ((s.Intersect o).Len : Int)
    ∧ (s.Intersect o).Len ≤ s.Len + o.Len
    ∧ (s.Union o).Len = s.Len + o.Len - (s.Intersect o).Len := by
  have h := Finset.card_union_add_card_inter s.toFinset o.toFinset
  have hu := Set.len_eq (s.Union o)
  have hi := Set.len_eq (s.Intersect o)
  rw [Set.toFinset_union, Set.nanCount_union] at hu
  rw [Set.toFinset_intersect, Set.nanCount_intersect] at hi
  have hs := Set.len_eq s
  have ho := Set.len_eq o
  refine ⟨?_, ?_, ?_⟩ <;> omega

/-- C19: for all sets s and o, with larger the operand of greater length (s on
a tie) and smaller the other one, the size that Union computes before it
inserts anything, larger.Len() + smaller.Diff(larger).Len(), is exactly the
length of s.Union(o). -/
theorem Union_hint_exact (s o : Set T) :
    Set.unionHint s o = (s.Union o).Len
    ∧ (o.Len ≤ s.Len → Set.unionHint s o = s.Len + (o.Diff s).Len)
    ∧ (s.Len < o.Len → Set.unionHint s o = o.Len + (s.Diff o).Len)
    ∧ s.Union o
        = Set.insertAll
            (Set.insertAll ⟨GoMap.make (Set.unionHint s o)⟩
              (Set.unionOperands s o).1.inner.keys)
            ((Set.unionOperands s o).2.Diff (Set.unionOperands s o).1).inner.keys := by
  have hle : o.Len ≤ s.Len → Set.unionHint s o = s.Len + (o.Diff s).Len := by
    intro h
    have h2 : ¬ s.Len < o.Len := by omega
    simp [Set.unionHint, Set.unionOperands, h2]
  have hlt : s.Len < o.Len → Set.unionHint s o = o.Len + (s.Diff o).Len := by
    intro h
    simp [Set.unionHint, Set.unionOperands, h]
  refine ⟨?_, hle, hlt, rfl⟩
  have hk := congrArg List.length (Set.union_keys s o)
  rw [List.length_append] at hk
  exact hk.symm

/-- C20 as the comment in Union words it, at s = New([1,2]) and o = New([3]):
the union contains 3, but neither the longest set nor longest.Diff(shortest)
does, so the union is not the longest set together with
longest.Diff(shortest). -/
theorem Union_comment_counterexample :
    ¬ (((Set.New [1, 2] : Set Nat).Union (Set.New [3])).Contains 3 = true
        ↔ ((Set.unionOperands (Set.New [1, 2] : Set Nat) (Set.New [3])).1.Contains 3 = true
          ∨ ((Set.unionOperands (Set.New [1, 2] : Set Nat) (Set.New [3])).1.Diff
              (Set.unionOperands (Set.New [1, 2] : Set Nat) (Set.New [3])).2).Contains 3
                = true)) := by
  decide

/-- C20, amended: Union adds all the elements of the longest set and then the
elements of shortest.Diff(longest); for all sets s and o, with longest the
operand of greater length (s on a tie) and shortest the other one, s.Union(o)
contains exactly the elements of longest together with those of
shortest.Diff(longest). -/
theorem Union_construction (s o : Set T) (v : T) :
    ((s.Union o).Contains v = true
        ↔ ((Set.unionOperands s o).1.Contains v = true
          ∨ ((Set.unionOperands s o).2.Diff (Set.unionOperands s o).1).Contains v = true))
    ∧ (o.Len ≤ s.Len → Set.unionOperands s o = (s, o))
    ∧ (s.Len < o.Len → Set.unionOperands s o = (o, s))
    ∧ (s.Union o).inner.keys
        = (Set.unionOperands s o).1.inner.keys
          ++ ((Set.unionOperands s o).2.Diff (Set.unionOperands s o).1).inner.keys := by
  refine ⟨?_, ?_, ?_, Set.union_keys s o⟩
  · rw [Set.contains_iff, Set.contains_iff, Set.contains_iff, Set.union_keys,
      List.mem_append]
    tauto
  · intro h
    have h2 : ¬ s.Len < o.Len := by omega
    simp [Set.unionOperands, h2]
  · intro h
    simp [Set.unionOperands, h]

/-! ## The binary operations on pointers -/

/-- C14: for all sets s and o, given by pointers that may be equal, a call of
s.Diff(o), s.SymDiff(o), s.Intersect(o) or s.Union(o) leaves s and o exactly as
they were, hence their contents and lengths too; the set it returns is a new
one, and holds what the method computes from the two operands. -/
theorem binary_ops_frame (h : Heap T) (s o : Nat) (hs : s < h.next) (ho : o < h.next) :
    ((h.Diff s o).2.cells s = h.cells s
      ∧ (h.Diff s o).2.cells o = h.cells o)
    ∧ ((h.SymDiff s o).2.cells s = h.cells s
      ∧ (h.SymDiff s o).2.cells o = h.cells o)
    ∧ ((h.Intersect s o).2.cells s = h.cells s
      ∧ (h.Intersect s o).2.cells o = h.cells o)
    ∧ ((h.Union s o).2.cells s = h.cells s
      ∧ (h.Union s o).2.cells o = h.cells o)
    ∧ (h.next ≤ (h.Diff s o).1 ∧ h.next ≤ (h.SymDiff s o).1
      ∧ h.next ≤ (h.Intersect s o).1 ∧ h.next ≤ (h.Union s o).1)
    ∧ ((h.Diff s o).2.cells (h.Diff s o).1 = (h.cells s).Diff (h.cells o)
      ∧ (h.SymDiff s o).2.cells (h.SymDiff s o).1 = (h.cells s).SymDiff (h.cells o)
      ∧ (h.Intersect s o).2.cells (h.Intersect s o).1 = (h.cells s).Intersect (h.cells o)
      ∧ (h.Union s o).2.cells (h.Union s o).1 = (h.cells s).Union (h.cells o)) := by
  have hs2 : s ≠ h.next := by omega
  have ho2 : o ≠ h.next := by omega
  have hsd := Heap.symDiff_spec h s o hs ho
  have hun := Heap.union_spec h s o hs ho
  have hd := Heap.diff_eq h s o hs ho
  have hi := Heap.intersect_eq h s o hs ho
  refine ⟨⟨?_, ?_⟩, ⟨hsd.2.2 s hs, hsd.2.2 o ho⟩, ⟨?_, ?_⟩, ⟨hun.2.2 s hs, hun.2.2 o ho⟩,
    ⟨?_, ?_, ?_, ?_⟩, ⟨?_, ?_, ?_, ?_⟩⟩
  · rw [hd]; exact Heap.alloc_cells_ne h hs2 _
  · rw [hd]; exact Heap.alloc_cells_ne h ho2 _
  · rw [hi]; exact Heap.alloc_cells_ne h hs2 _
  · rw [hi]; exact Heap.alloc_cells_ne h ho2 _
  · rw [hd]; exact Nat.le_refl _
  · rw [hsd.1]
  · rw [hi]; exact Nat.le_refl _
  · rw [hun.1]; exact Nat.le_succ _
  · rw [hd]; exact Heap.alloc_cells_same h _
  · rw [hsd.1]; exact hsd.2.1
  · rw [hi]; exact Heap.alloc_cells_same h _
  · rw [hun.1]; exact hun.2.1

/-- The statement of C14 at the store holding New([1,2,3]) at address 0 and
New([2,3,4]) at address 1: both are allocated, and the four operations leave
both as they were. -/
theorem binary_ops_frame_witness :
    ((0 : Nat) < exampleHeap.next ∧ (1 : Nat) < exampleHeap.next)
    ∧ ((exampleHeap.Diff 0 1).2.cells 0 = exampleHeap.cells 0
      ∧ (exampleHeap.Diff 0 1).2.cells 1 = exampleHeap.cells 1)
    ∧ ((exampleHeap.SymDiff 0 1).2.cells 0 = exampleHeap.cells 0
      ∧ (exampleHeap.SymDiff 0 1).2.cells 1 = exampleHeap.cells 1)
    ∧ ((exampleHeap.Intersect 0 1).2.cells 0 = exampleHeap.cells 0
      ∧ (exampleHeap.Intersect 0 1).2.cells 1 = exampleHeap.cells 1)
    ∧ ((exampleHeap.Union 0 1).2.cells 0 = exampleHeap.cells 0
      ∧ (exampleHeap.Union 0 1).2.cells 1 = exampleHeap.cells 1) :=
  ⟨⟨by decide, by decide⟩,
    (binary_ops_frame exampleHeap 0 1 (by decide) (by decide)).1,
    (binary_ops_frame exampleHeap 0 1 (by decide) (by decide)).2.1,
    (binary_ops_frame exampleHeap 0 1 (by decide) (by decide)).2.2.1,
    (binary_ops_frame exampleHeap 0 1 (by decide) (by decide)).2.2.2.1⟩

/-! ## Remove, Intersect and Disjoint -/

/-- C6: for every set s and value v, s.Remove(v) returns true exactly when v
was contained before; afterwards v is not contained, the membership of every
other value is as before, and a second Remove(v) right after returns false. -/
theorem Remove_spec (s : Set T) (v : T) :
    ((s.Remove v).1 = true ↔ s.Contains v = true)
    ∧ (s.Remove v).2.Contains v = false
    ∧ (∀ w, w ≠ v → (s.Remove v).2.Contains w = s.Contains w)
    ∧ ((s.Remove v).2.Remove v).1 = false := by
  have hmem : ∀ w, w ∈ (s.Remove v).2.inner.keys ↔ w ∈ s.inner.keys ∧ goEq w v = false := by
    intro w
    simp [Set.Remove, GoMap.delete, List.mem_filter]
  have hout : (s.Remove v).2.Contains v = false := by
    rw [Set.contains_eq_false_iff]
    rintro ⟨hk, hs⟩
    have h1 := ((hmem v).1 hk).2
    have h2 : goEq v v = true := (Set.goEq_iff v v).2 ⟨hs, rfl⟩
    rw [h1] at h2
    exact absurd h2 (by decide)
  refine ⟨?_, hout, ?_, ?_⟩
  · cases h : s.Contains v <;> simp [Set.Remove, h]
  · intro w hw
    have hne : goEq w v = false := by
      cases hg : goEq w v with
      | false => rfl
      | true => exact absurd ((Set.goEq_iff w v).1 hg).2 hw
    rw [Bool.eq_iff_iff, Set.contains_iff, Set.contains_iff, hmem]
    constructor
    · rintro ⟨⟨hk, _⟩, hs⟩
      exact ⟨hk, hs⟩
    · rintro ⟨hk, hs⟩
      exact ⟨⟨hk, hne⟩, hs⟩
  · generalize (s.Remove v).2 = t at hout ⊢
    simp [Set.Remove, hout]

/-- C8: for all sets s and o and every value v, s.Intersect(o) contains v
exactly when both s and o contain v, and so s.Intersect(o).Equal(o.Intersect(s))
is true. -/
theorem Intersect_contains_iff (s o : Set T) (v : T) :
    ((s.Intersect o).Contains v = true ↔ (s.Contains v = true ∧ o.Contains v = true))
    ∧ (s.Intersect o).Equal (o.Intersect s) = true := by
  refine ⟨?_, ?_⟩
  · rw [← Set.mem_toFinset, ← Set.mem_toFinset, ← Set.mem_toFinset, Set.toFinset_intersect,
      Finset.mem_inter]
  · rw [Set.equal_iff_toFinset, Set.toFinset_intersect, Set.toFinset_intersect,
      Finset.inter_comm]
    exact ⟨Set.nanCount_intersect s o, Set.nanCount_intersect o s, rfl⟩

/-- C12: for all sets s and o, s.Disjoint(o) is true exactly when
s.Intersect(o) has length 0; two sets of length zero are disjoint, a set of
length zero is disjoint with itself, and New([1]).Disjoint(New([1])) is
false. -/
theorem Disjoint_iff (s o : Set T) :
    (s.Disjoint o = true ↔ (s.Intersect o).Len = 0)
    ∧ (∀ e f : Set T, e.Len = 0 → f.Len = 0 → e.Disjoint f = true ∧ e.Disjoint e = true)
    ∧ (Set.New ([] : List Nat)).Disjoint (Set.New []) = true
    ∧ (Set.New [1] : Set Nat).Disjoint (Set.New [1]) = false := by
  refine ⟨?_, ?_, by decide, by decide⟩
  · unfold Set.Disjoint
    rw [Set.disjointLoop_iff]
    have hlen : (s.Intersect o).Len = 0 ↔ (s.Intersect o).inner.keys = [] :=
      List.length_eq_zero
    rw [hlen, Set.intersect_keys, List.filter_eq_nil_iff]
    constructor
    · intro h k hk
      rw [h k hk]
      decide
    · intro h k hk
      cases hc : o.Contains k with
      | false => rfl
      | true => exact absurd hc (h k hk)
  · intro e f he _
    have hk : e.inner.keys = [] := List.length_eq_zero.1 he
    constructor <;> simp [Set.Disjoint, hk, Set.disjointLoop]

/-! ## String -/

/-- C17: for every set s, s.String() is an opening brace, then the renderings
of the elements that s holds, each exactly once in the order of the visit,
joined by single commas with none leading or trailing, then a closing brace;
the elements are pairwise not ==, and when none of them is a NaN they are
pairwise different and are exactly the values that s contains; a set of length
zero renders as the two braces alone, a set holding only 1 as the braces
around 1, and a set holding 1 and 2 as the braces around 1,2 or around 2,1. -/
theorem String_spec (s : Set T) (render : T → String) :
    s.String render = "\x7b" ++ commaJoined (s.inner.keys.map render) ++ "\x7d"
    ∧ s.inner.keys.Pairwise (fun a b => goEq a b = false)
    ∧ s.inner.keys.length = s.Len
    ∧ (∀ v, s.Contains v = true ↔ (v ∈ s.inner.keys ∧ Comparable.selfEq v = true))
    ∧ (s.allSelfEq = true →
        s.inner.keys.Nodup ∧ ∀ v, v ∈ s.inner.keys ↔ s.Contains v = true)
    ∧ (s.Len = 0 → s.String render = "\x7b\x7d")
    ∧ (∀ t : Set Nat, (∀ v, t.Contains v = true ↔ v = 1) → t.String toString = "\x7b1\x7d")
    ∧ (∀ t : Set Nat, (∀ v, t.Contains v = true ↔ (v = 1 ∨ v = 2)) →
        (t.String toString = "\x7b1,2\x7d" ∨ t.String toString = "\x7b2,1\x7d"))
    ∧ (Set.New ([] : List Nat)).String toString = "\x7b\x7d"
    ∧ (Set.New [1] : Set Nat).String toString = "\x7b1\x7d" := by
  have hnat : ∀ t : Set Nat, t.inner.keys.Nodup ∧ ∀ v, v ∈ t.inner.keys ↔ t.Contains v = true := by
    intro t
    have hall : ∀ k ∈ t.inner.keys, Comparable.selfEq k = true := fun _ _ => rfl
    have hf : t.inner.keys.filter Comparable.selfEq = t.inner.keys :=
      List.filter_eq_self.2 hall
    refine ⟨?_, ?_⟩
    · have := Set.filter_selfEq_nodup t
      rwa [hf] at this
    · intro v
      rw [Set.contains_iff]
      exact ⟨fun h => ⟨h, rfl⟩, fun h => h.1⟩
  refine ⟨string_eq s render, s.inner.distinct, rfl, Set.contains_iff s, ?_, ?_, ?_, ?_,
    by decide, by decide⟩
  · intro hs
    have hall := (Set.allSelfEq_iff s).1 hs
    have hf : s.inner.keys.filter Comparable.selfEq = s.inner.keys :=
      List.filter_eq_self.2 hall
    refine ⟨?_, ?_⟩
    · have := Set.filter_selfEq_nodup s
      rwa [hf] at this
    · intro v
      rw [Set.contains_iff]
      exact ⟨fun h => ⟨h, hall v h⟩, fun h => h.1⟩
  · intro h
    have hk : s.inner.keys = [] := List.length_eq_zero.1 h
    rw [string_eq, hk, List.map_nil]
    decide
  · intro t ht
    have hperm : t.inner.keys.Perm [1] := by
      apply List.perm_of_nodup_nodup_toFinset_eq (hnat t).1 (by decide)
      ext v
      rw [List.mem_toFinset, (hnat t).2, ht]
      simp
    have hk : t.inner.keys = [1] := List.perm_singleton.1 hperm
    rw [string_eq, hk]
    decide
  · intro t ht
    have hperm : t.inner.keys.Perm [1, 2] := by
      apply List.perm_of_nodup_nodup_toFinset_eq (hnat t).1 (by decide)
      ext v
      rw [List.mem_toFinset, (hnat t).2, ht]
      simp
    obtain ⟨x, y, hxy⟩ := List.length_eq_two.1 hperm.length_eq
    have hx : x = 1 ∨ x = 2 := by
      have : x ∈ t.inner.keys := by rw [hxy]; simp
      simpa using hperm.mem_iff.1 this
    have hy : y = 1 ∨ y = 2 := by
      have : y ∈ t.inner.keys := by rw [hxy]; simp
      simpa using hperm.mem_iff.1 this
    have hne : x ≠ y := by
      have hnd := (hnat t).1
      rw [hxy] at hnd
      simpa using hnd
    rw [string_eq, hxy]
    rcases hx with rfl | rfl <;> rcases hy with rfl | rfl
    · exact absurd rfl hne
    · exact Or.inl (by decide)
    · exact Or.inr (by decide)
    · exact absurd rfl hne

/-! ## Subset, Superset and Equal -/

/-- C3 as stated, at s = o = New([]float64{NaN}): every value that s contains
is contained in o, no value being contained at all, yet s.Subset(o) is
false, because the lookup of the NaN that s holds fails. -/
theorem Subset_nan_counterexample :
    ¬ (nanSet.Subset nanSet = true
        ↔ ∀ v, nanSet.Contains v = true → nanSet.Contains v = true) := by
  intro h
  have h2 := h.2 (fun _ hv => hv)
  revert h2
  decide

/-- C3, amended: for all sets s and o such that no element of s is a NaN (an
element that is not == to itself), s.Subset(o) is true exactly when every
value contained in s is contained in o.  For all sets, NaN or not, Subset is
true exactly when every element that s holds is found in o, the early return
on s.Len() > o.Len() does not change the answer, and a set of length zero,
such as New(nil), is a subset of every set, itself included. -/
theorem Subset_iff (s o : Set T) :
    (s.allSelfEq = true →
      (s.Subset o = true ↔ ∀ v, s.Contains v = true → o.Contains v = true))
    ∧ (s.Subset o = true ↔ ∀ k ∈ s.inner.keys, o.Contains k = true)
    ∧ s.Subset o = Set.allContained o s.inner.keys
    ∧ (∀ e : Set T, e.Len = 0 → e.Subset o = true ∧ e.Subset e = true)
    ∧ (Set.New ([] : List T)).Subset o = true
    ∧ (Set.New ([] : List T)).Subset (Set.New []) = true := by
  have nil : ∀ e b : Set T, e.Len = 0 → e.Subset b = true := by
    intro e b he
    have hk : e.inner.keys = [] := List.length_eq_zero.1 he
    rw [Set.subset_eq_loop, hk]
    rfl
  have hkeys : s.Subset o = true ↔ ∀ k ∈ s.inner.keys, o.Contains k = true := by
    rw [Set.subset_eq_loop, Set.allContained_iff]
  refine ⟨?_, hkeys, Set.subset_eq_loop s o, fun e he => ⟨nil e o he, nil e e he⟩,
    nil _ o rfl, nil _ _ rfl⟩
  intro hs
  have hall := (Set.allSelfEq_iff s).1 hs
  rw [hkeys]
  constructor
  · intro h v hv
    exact h v ((Set.contains_iff s v).1 hv).1
  · intro h k hk
    exact h k ((Set.contains_iff s k).2 ⟨hk, hall k hk⟩)

/-- C3, amended, at s = New([1,2]) and o = New([1,2,3]): s holds no NaN, and
s.Subset(o) is true exactly when every value contained in s is contained in
o. -/
theorem Subset_iff_witness :
    (Set.New [1, 2] : Set Nat).allSelfEq = true
    ∧ ((Set.New [1, 2] : Set Nat).Subset (Set.New [1, 2, 3]) = true
        ↔ ∀ v, (Set.New [1, 2] : Set Nat).Contains v = true
            → (Set.New [1, 2, 3] : Set Nat).Contains v = true) :=
  ⟨by decide, (Subset_iff (Set.New [1, 2] : Set Nat) (Set.New [1, 2, 3])).1 (by decide)⟩

/-- C18 as stated, at s = o = New([]float64{NaN}): every value that o
contains is contained in s, yet s.Superset(o) is false. -/
theorem Superset_nan_counterexample :
    ¬ (nanSet.Superset nanSet = true
        ↔ ∀ v, nanSet.Contains v = true → nanSet.Contains v = true) := by
  intro h
  have h2 := h.2 (fun _ hv => hv)
  revert h2
  decide

/-- C18, amended: for all sets s and o, s.Superset(o) returns what o.Subset(s)
returns; when no element of o is a NaN (an element that is not == to itself),
it is true exactly when every value contained in o is contained in s; a set of
length zero is a superset of itself, and New(nil).Superset(New([1,2])) is
false. -/
theorem Superset_spec (s o : Set T) :
    s.Superset o = o.Subset s
    ∧ (o.allSelfEq = true →
        (s.Superset o = true ↔ ∀ v, o.Contains v = true → s.Contains v = true))
    ∧ (s.Superset o = true ↔ ∀ k ∈ o.inner.keys, s.Contains k = true)
    ∧ (∀ e : Set T, e.Len = 0 → e.Superset e = true)
    ∧ (Set.New ([] : List Nat)).Superset (Set.New [1, 2]) = false := by
  have hkeys : s.Superset o = true ↔ ∀ k ∈ o.inner.keys, s.Contains k = true := by
    unfold Set.Superset
    rw [Set.subset_eq_loop, Set.allContained_iff]
  refine ⟨rfl, ?_, hkeys, ?_, by decide⟩
  · intro ho
    have hall := (Set.allSelfEq_iff o).1 ho
    rw [hkeys]
    constructor
    · intro h v hv
      exact h v ((Set.contains_iff o v).1 hv).1
    · intro h k hk
      exact h k ((Set.contains_iff o k).2 ⟨hk, hall k hk⟩)
  · intro e he
    have hk : e.inner.keys = [] := List.length_eq_zero.1 he
    unfold Set.Superset
    rw [Set.subset_eq_loop, hk]
    rfl

/-- C18, amended, at s = New([1,2,3]) and o = New([1,2]): o holds no NaN, and
s.Superset(o) is true exactly when every value contained in o is contained in
s. -/
theorem Superset_spec_witness :
    (Set.New [1, 2] : Set Nat).allSelfEq = true
    ∧ ((Set.New [1, 2, 3] : Set Nat).Superset (Set.New [1, 2]) = true
        ↔ ∀ v, (Set.New [1, 2] : Set Nat).Contains v = true
            → (Set.New [1, 2, 3] : Set Nat).Contains v = true) :=
  ⟨by decide, (Superset_spec (Set.New [1, 2, 3] : Set Nat) (Set.New [1, 2])).2.1 (by decide)⟩

/-- C4 as stated, at s = o = New([]float64{NaN}): the two sets contain the
same values, Contains agreeing on every value, yet s.Equal(o) is false. -/
theorem Equal_nan_counterexample :
    ¬ (nanSet.Equal nanSet = true ↔ ∀ v, nanSet.Contains v = nanSet.Contains v) := by
  intro h
  have h2 := h.2 (fun _ => rfl)
  revert h2
  decide

/-- C4, amended: for all sets s and o, s.Equal(o) is true exactly when
s.Subset(o) and o.Subset(s) are both true, so the check of equal length plus
every element of s being in o is equivalent to mutual subset; and when neither
set holds a NaN (an element that is not == to itself), Equal holds exactly
when the two sets contain the same values. -/
theorem Equal_iff_mutual_subset (s o : Set T) :
    (s.Equal o = true ↔ (s.Subset o = true ∧ o.Subset s = true))
    ∧ (s.allSelfEq = true → o.allSelfEq = true →
        (s.Equal o = true ↔ ∀ v, s.Contains v = o.Contains v)) := by
  refine ⟨?_, ?_⟩
  · rw [Set.equal_iff_toFinset, Set.subset_iff_toFinset, Set.subset_iff_toFinset]
    constructor
    · rintro ⟨hn, hm, h⟩
      exact ⟨⟨hn, h ▸ Finset.Subset.refl _⟩, ⟨hm, h ▸ Finset.Subset.refl _⟩⟩
    · rintro ⟨⟨hn, h1⟩, ⟨hm, h2⟩⟩
      exact ⟨hn, hm, Finset.Subset.antisymm h1 h2⟩
  · intro hs ho
    rw [Set.equal_iff_toFinset, Set.toFinset_eq_iff]
    constructor
    · exact fun h => h.2.2
    · exact fun h => ⟨Set.nanCount_of_allSelfEq s hs, Set.nanCount_of_allSelfEq o ho, h⟩

/-- C4, amended, at s = New([1,2]) and o = New([2,1]): neither holds a NaN,
and s.Equal(o) is true exactly when the two contain the same values. -/
theorem Equal_iff_mutual_subset_witness :
    ((Set.New [1, 2] : Set Nat).allSelfEq = true ∧ (Set.New [2, 1] : Set Nat).allSelfEq = true)
    ∧ ((Set.New [1, 2] : Set Nat).Equal (Set.New [2, 1]) = true
        ↔ ∀ v, (Set.New [1, 2] : Set Nat).Contains v = (Set.New [2, 1] : Set Nat).Contains v) :=
  ⟨⟨by decide, by decide⟩,
    (Equal_iff_mutual_subset (Set.New [1, 2] : Set Nat) (Set.New [2, 1])).2
      (by decide) (by decide)⟩

/-! ## Insert, New and Elems -/

/-- C5 as stated, at the empty set of float64 and v = NaN: after Insert(NaN)
the set does not contain NaN, and a second Insert(NaN) returns true and takes
the length from 1 to 2. -/
theorem Insert_nan_counterexample :
    ¬ (((Set.New ([] : List F64)).Insert F64.NaN).2.Contains F64.NaN = true)
    ∧ ¬ ((((Set.New ([] : List F64)).Insert F64.NaN).2.Insert F64.NaN).1 = false)
    ∧ ¬ ((((Set.New ([] : List F64)).Insert F64.NaN).2.Insert F64.NaN).2.Len
          = ((Set.New ([] : List F64)).Insert F64.NaN).2.Len) := by
  decide

/-- C5, amended: for every set s and value v, s.Insert(v) returns true exactly
when v was not contained before; afterwards the membership of every other
value is as before, and Len has grown by exactly 1 when the call returned true
and is unchanged otherwise.  When v is == to itself (not a NaN), v is
contained after the call, and a second Insert(v) returns false and leaves Len
(indeed the whole set) unchanged. -/
theorem Insert_spec (s : Set T) (v : T) :
    ((s.Insert v).1 = true ↔ s.Contains v = false)
    ∧ (Comparable.selfEq v = true → (s.Insert v).2.Contains v = true)
    ∧ (∀ w, w ≠ v → (s.Insert v).2.Contains w = s.Contains w)
    ∧ (s.Insert v).2.Len = s.Len + (if (s.Insert v).1 = true then 1 else 0)
    ∧ (Comparable.selfEq v = true →
        ((s.Insert v).2.Insert v).1 = false
        ∧ ((s.Insert v).2.Insert v).2.Len = (s.Insert v).2.Len
        ∧ ((s.Insert v).2.Insert v).2 = (s.Insert v).2) := by
  have hin : Comparable.selfEq v = true → (s.Insert v).2.Contains v = true := by
    intro hv
    rw [Set.contains_insert, (Set.goEq_iff v v).2 ⟨hv, rfl⟩, Bool.or_true]
  refine ⟨?_, hin, ?_, ?_, ?_⟩
  · cases h : s.Contains v <;> simp [Set.Insert, h]
  · intro w hw
    have hne : goEq v w = false := by
      cases hg : goEq v w with
      | false => rfl
      | true => exact absurd ((Set.goEq_iff v w).1 hg).2.symm hw
    rw [Set.contains_insert, hne, Bool.or_false]
  · have hk := congrArg List.length (Set.insert_keys s v)
    cases h : s.Contains v
    · have h1 : (s.Insert v).1 = true := by simp [Set.Insert, h]
      rw [h1]
      simp only [h, Bool.false_eq_true, if_false, List.length_append, List.length_singleton]
        at hk
      simpa [Set.Len, GoMap.len] using hk
    · have h1 : (s.Insert v).1 = false := by simp [Set.Insert, h]
      rw [h1]
      simp only [h, if_true] at hk
      simpa [Set.Len, GoMap.len] using hk
  · intro hv
    have hsecond : (s.Insert v).2.Insert v = (false, (s.Insert v).2) :=
      Set.insert_of_contains _ v (hin hv)
    rw [hsecond]
    exact ⟨rfl, rfl, rfl⟩

/-- C5, amended, at s = New([1,2,3]) and v = 4: v is == to itself, it is
contained after the call, and a second Insert(4) returns false and leaves
the set as it is. -/
theorem Insert_spec_witness :
    Comparable.selfEq (4 : Nat) = true
    ∧ ((Set.New [1, 2, 3] : Set Nat).Insert 4).2.Contains 4 = true
    ∧ ((((Set.New [1, 2, 3] : Set Nat).Insert 4).2.Insert 4).1 = false
      ∧ (((Set.New [1, 2, 3] : Set Nat).Insert 4).2.Insert 4).2.Len
          = ((Set.New [1, 2, 3] : Set Nat).Insert 4).2.Len
      ∧ (((Set.New [1, 2, 3] : Set Nat).Insert 4).2.Insert 4).2
          = ((Set.New [1, 2, 3] : Set Nat).Insert 4).2) :=
  ⟨rfl, (Insert_spec (Set.New [1, 2, 3] : Set Nat) 4).2.1 rfl,
    (Insert_spec (Set.New [1, 2, 3] : Set Nat) 4).2.2.2.2 rfl⟩

/-- C15 as stated, at elems = [NaN, NaN] of float64: NaN occurs in elems but
New(elems) does not contain it, and the length is 2 although elems has one
distinct value. -/
theorem New_nan_counterexample :
    ¬ ((Set.New [F64.NaN, F64.NaN]).Contains F64.NaN = true ↔ F64.NaN ∈ [F64.NaN, F64.NaN])
    ∧ ¬ ((Set.New [F64.NaN, F64.NaN]).Len = [F64.NaN, F64.NaN].dedup.length) := by
  decide

/-- C15, amended: for every list elems, empty or with repeated values, in
which no value is a NaN (a value that is not == to itself), New(elems)
contains v exactly when v occurs in elems, and its length is the number of
distinct values in elems; New([4,2,3,4]) has length 3 and New(nil) length 0. -/
theorem New_spec (elems : List T) (v : T) (helems : elems.all Comparable.selfEq = true) :
    ((Set.New elems).Contains v = true ↔ v ∈ elems)
    ∧ (Set.New elems).Len = elems.dedup.length
    ∧ (Set.New [4, 2, 3, 4] : Set Nat).Len = 3
    ∧ (Set.New ([] : List Nat)).Len = 0 := by
  have hall : ∀ e ∈ elems, Comparable.selfEq e = true := List.all_eq_true.1 helems
  have hf : elems.filter Comparable.selfEq = elems := List.filter_eq_self.2 hall
  refine ⟨?_, ?_, by decide, by decide⟩
  · rw [Set.contains_iff, Set.mem_new]
    exact ⟨fun h => h.1, fun h => ⟨h, hall v h⟩⟩
  · have hn : (Set.New elems).nanCount = 0 := by
      rw [Set.nanCount_eq_zero_iff]
      intro k hk
      exact hall k ((Set.mem_new elems k).1 hk)
    rw [Set.len_eq, hn, Set.toFinset_new, hf, List.card_toFinset, Nat.add_zero]

/-- C15, amended, at elems = [4,2,3,4] and v = 2: no value of elems is a NaN,
New(elems) contains 2 exactly when 2 occurs in elems, and its length is the
number of distinct values. -/
theorem New_spec_witness :
    [4, 2, 3, 4].all (Comparable.selfEq : Nat → Bool) = true
    ∧ ((Set.New [4, 2, 3, 4] : Set Nat).Contains 2 = true ↔ 2 ∈ [4, 2, 3, 4])
    ∧ (Set.New [4, 2, 3, 4] : Set Nat).Len = [4, 2, 3, 4].dedup.length :=
  ⟨by decide, (New_spec [4, 2, 3, 4] 2 (by decide)).1,
    (New_spec [4, 2, 3, 4] 2 (by decide)).2.1⟩

/-- C16 as stated, at s = New([]float64{NaN, NaN}): Elems holds NaN twice, and
NaN is a member of Elems that s does not contain. -/
theorem Elems_nan_counterexample :
    ¬ (Set.sliceElems ((Set.New [F64.NaN, F64.NaN]).Elems (F64.num 0))).Nodup
    ∧ ¬ (F64.NaN ∈ Set.sliceElems ((Set.New [F64.NaN, F64.NaN]).Elems (F64.num 0))
          ↔ (Set.New [F64.NaN, F64.NaN]).Contains F64.NaN = true) := by
  decide

/-- C16, amended: for every set s, s.Elems() is a sequence of length s.Len()
holding the elements of s in the order the loop visited them; when s holds no
NaN (no element that is not == to itself), no value occurs twice in it and its
members are exactly the values that s contains; for an empty set the result is
the nil slice, with zero elements. -/
theorem Elems_spec (s : Set T) (zero : T) :
    (Set.sliceElems (s.Elems zero)).length = s.Len
    ∧ (s.allSelfEq = true →
        (Set.sliceElems (s.Elems zero)).Nodup
        ∧ ∀ v, v ∈ Set.sliceElems (s.Elems zero) ↔ s.Contains v = true)
    ∧ (s.Len = 0 → s.Elems zero = none ∧ (Set.sliceElems (s.Elems zero)).length = 0)
    ∧ (s.Len ≠ 0 → s.Elems zero = some s.inner.keys) := by
  refine ⟨?_, ?_, ?_, ?_⟩
  · rw [Set.sliceElems_elems]
    rfl
  · intro hs
    have hall := (Set.allSelfEq_iff s).1 hs
    have hf : s.inner.keys.filter Comparable.selfEq = s.inner.keys :=
      List.filter_eq_self.2 hall
    rw [Set.sliceElems_elems]
    refine ⟨?_, ?_⟩
    · have := Set.filter_selfEq_nodup s
      rwa [hf] at this
    · intro v
      rw [Set.contains_iff]
      exact ⟨fun h => ⟨h, hall v h⟩, fun h => h.1⟩
  · intro h
    refine ⟨Set.elems_of_len_eq_zero s zero h, ?_⟩
    rw [Set.sliceElems_elems]
    exact h
  · exact Set.elems_of_len_ne_zero s zero

/-- C16, amended, at s = New([1,2,3]): s holds no NaN, no value occurs twice
in Elems, and 2 is a member of Elems exactly when s contains it. -/
theorem Elems_spec_witness :
    (Set.New [1, 2, 3] : Set Nat).allSelfEq = true
    ∧ (Set.sliceElems ((Set.New [1, 2, 3] : Set Nat).Elems 0)).Nodup
    ∧ (2 ∈ Set.sliceElems ((Set.New [1, 2, 3] : Set Nat).Elems 0)
        ↔ (Set.New [1, 2, 3] : Set Nat).Contains 2 = true) :=
  ⟨by decide, ((Elems_spec (Set.New [1, 2, 3] : Set Nat) 0).2.1 (by decide)).1,
    ((Elems_spec (Set.New [1, 2, 3] : Set Nat) 0).2.1 (by decide)).2 2⟩

/-! ## Diff, SymDiff and the commutativity laws -/

/-- C7 as stated, at s = New([]float64{NaN}): s.Diff(s) has length 1, because
the lookup of NaN in s fails and the NaN is inserted. -/
theorem Diff_nan_counterexample : ¬ ((nanSet.Diff nanSet).Len = 0) := by
  decide

/-- C7, amended: for all sets s and o and every value v, s.Diff(o) contains v
exactly when s contains v and o does not; so s.Diff(s) contains no value, its
length is the number of NaN that s holds, and it is empty when s holds no NaN
(no element that is not == to itself); New([1,2,3]).Diff(New([2,3,4])) equals
the set of the single value 1. -/
theorem Diff_contains_iff (s o : Set T) (v : T) :
    ((s.Diff o).Contains v = true ↔ (s.Contains v = true ∧ o.Contains v = false))
    ∧ (s.allSelfEq = true → (s.Diff s).Len = 0)
    ∧ (s.Diff s).Len = s.nanCount
    ∧ (s.Diff s).Contains v = false
    ∧ ((Set.New [1, 2, 3] : Set Nat).Diff (Set.New [2, 3, 4])).Equal (Set.New [1]) = true := by
  have hself : (s.Diff s).toFinset = ∅ := by
    rw [Set.toFinset_diff, Finset.sdiff_self]
  have hlen : (s.Diff s).Len = s.nanCount := by
    rw [Set.len_eq, hself, Set.nanCount_diff, Finset.card_empty, Nat.zero_add]
  refine ⟨?_, ?_, hlen, ?_, by decide⟩
  · rw [← Set.mem_toFinset, Set.toFinset_diff, Finset.mem_sdiff, Set.mem_toFinset,
      Set.mem_toFinset]
    simp only [Bool.not_eq_true]
  · intro hs
    rw [hlen, Set.nanCount_of_allSelfEq s hs]
  · cases h : (s.Diff s).Contains v with
    | false => rfl
    | true =>
      have hm := (Set.mem_toFinset (s.Diff s) v).2 h
      rw [hself] at hm
      exact absurd hm (Finset.not_mem_empty v)

/-- C7, amended, at s = New([1,2,3]): s holds no NaN and s.Diff(s) is
empty. -/
theorem Diff_contains_iff_witness :
    (Set.New [1, 2, 3] : Set Nat).allSelfEq = true
    ∧ ((Set.New [1, 2, 3] : Set Nat).Diff (Set.New [1, 2, 3])).Len = 0 :=
  ⟨by decide, (Diff_contains_iff (Set.New [1, 2, 3] : Set Nat) (Set.New [1, 2, 3]) 1).2.1
    (by decide)⟩

/-- C9 as stated, at s = New([]float64{NaN}) and o = New(nil): Equal between
s.SymDiff(o) and s.Diff(o).Union(o.Diff(s)) is false, because the lookup of
the NaN that both hold fails. -/
theorem SymDiff_nan_counterexample :
    ¬ ((nanSet.SymDiff (Set.New [])).Equal
        ((nanSet.Diff (Set.New [])).Union ((Set.New []).Diff nanSet)) = true) := by
  decide

/-- C9, amended: for all sets s and o and every value v, s.SymDiff(o) contains
v exactly when exactly one of s and o contains v, and s.SymDiff(o) has the
same Contains and the same Len as s.Diff(o).Union(o.Diff(s)); when neither s
nor o holds a NaN (an element that is not == to itself), Equal between the two
returns true, in both directions. -/
theorem SymDiff_spec (s o : Set T) (v : T) :
    (s.allSelfEq = true → o.allSelfEq = true →
      (s.SymDiff o).Equal ((s.Diff o).Union (o.Diff s)) = true
      ∧ ((s.Diff o).Union (o.Diff s)).Equal (s.SymDiff o) = true)
    ∧ (∀ w, (s.SymDiff o).Contains w = ((s.Diff o).Union (o.Diff s)).Contains w)
    ∧ (s.SymDiff o).Len = ((s.Diff o).Union (o.Diff s)).Len
    ∧ ((s.SymDiff o).Contains v = true ↔
        ((s.Contains v = true ∧ o.Contains v = false)
          ∨ (s.Contains v = false ∧ o.Contains v = true))) := by
  have hfin : (s.SymDiff o).toFinset = ((s.Diff o).Union (o.Diff s)).toFinset := by
    rw [Set.toFinset_symDiff, Set.toFinset_union, Set.toFinset_diff, Set.toFinset_diff]
  have hnan : (s.SymDiff o).nanCount = ((s.Diff o).Union (o.Diff s)).nanCount := by
    rw [Set.nanCount_symDiff, Set.nanCount_union, Set.nanCount_diff, Set.nanCount_diff]
  refine ⟨?_, (Set.toFinset_eq_iff _ _).1 hfin, ?_, ?_⟩
  · intro hs ho
    have h0 : (s.SymDiff o).nanCount = 0 := by
      rw [Set.nanCount_symDiff, Set.nanCount_of_allSelfEq s hs, Set.nanCount_of_allSelfEq o ho]
    rw [Set.equal_iff_toFinset, Set.equal_iff_toFinset]
    exact ⟨⟨h0, hnan ▸ h0, hfin⟩, ⟨hnan ▸ h0, h0, hfin.symm⟩⟩
  · rw [Set.len_eq, Set.len_eq, hfin, hnan]
  · rw [← Set.mem_toFinset, Set.toFinset_symDiff, Finset.mem_union, Finset.mem_sdiff,
      Finset.mem_sdiff, Set.mem_toFinset, Set.mem_toFinset]
    simp only [Bool.not_eq_true]
    tauto

/-- C9, amended, at s = New([0,1,2,3]) and o = New([1,2,3,4,5]): neither holds
a NaN, and Equal between s.SymDiff(o) and s.Diff(o).Union(o.Diff(s)) is true in
both directions. -/
theorem SymDiff_spec_witness :
    ((Set.New [0, 1, 2, 3] : Set Nat).allSelfEq = true
      ∧ (Set.New [1, 2, 3, 4, 5] : Set Nat).allSelfEq = true)
    ∧ (((Set.New [0, 1, 2, 3] : Set Nat).SymDiff (Set.New [1, 2, 3, 4, 5])).Equal
          (((Set.New [0, 1, 2, 3] : Set Nat).Diff (Set.New [1, 2, 3, 4, 5])).Union
            ((Set.New [1, 2, 3, 4, 5] : Set Nat).Diff (Set.New [0, 1, 2, 3]))) = true
      ∧ (((Set.New [0, 1, 2, 3] : Set Nat).Diff (Set.New [1, 2, 3, 4, 5])).Union
            ((Set.New [1, 2, 3, 4, 5] : Set Nat).Diff (Set.New [0, 1, 2, 3]))).Equal
          ((Set.New [0, 1, 2, 3] : Set Nat).SymDiff (Set.New [1, 2, 3, 4, 5])) = true) :=
  ⟨⟨by decide, by decide⟩,
    (SymDiff_spec (Set.New [0, 1, 2, 3] : Set Nat) (Set.New [1, 2, 3, 4, 5]) 0).1
      (by decide) (by decide)⟩

/-- C11 as stated, at s = New([]float64{NaN}) and o = New(nil):
s.SymDiff(o).Equal(o.SymDiff(s)) is false, because the lookup of the NaN that
both results hold fails. -/
theorem SymDiff_comm_nan_counterexample :
    ¬ ((nanSet.SymDiff (Set.New [])).Equal ((Set.New []).SymDiff nanSet) = true) := by
  decide

/-- C11, amended: for all sets s and o that hold no NaN (no element that is
not == to itself), s.SymDiff(o).Equal(o.SymDiff(s)) is true. -/
theorem SymDiff_comm_equal (s o : Set T) (hs : s.allSelfEq = true) (ho : o.allSelfEq = true) :
    (s.SymDiff o).Equal (o.SymDiff s) = true := by
  rw [Set.equal_iff_toFinset, Set.toFinset_symDiff, Set.toFinset_symDiff,
    Set.nanCount_symDiff, Set.nanCount_symDiff, Set.nanCount_of_allSelfEq s hs,
    Set.nanCount_of_allSelfEq o ho, Finset.union_comm]
  exact ⟨rfl, rfl, rfl⟩

/-- C11, amended, at s = New([0,1,2,3]) and o = New([1,2,3,4,5]): neither
holds a NaN, and s.SymDiff(o).Equal(o.SymDiff(s)) is true. -/
theorem SymDiff_comm_equal_witness :
    ((Set.New [0, 1, 2, 3] : Set Nat).allSelfEq = true
      ∧ (Set.New [1, 2, 3, 4, 5] : Set Nat).allSelfEq = true)
    ∧ ((Set.New [0, 1, 2, 3] : Set Nat).SymDiff (Set.New [1, 2, 3, 4, 5])).Equal
        ((Set.New [1, 2, 3, 4, 5] : Set Nat).SymDiff (Set.New [0, 1, 2, 3])) = true :=
  ⟨⟨by decide, by decide⟩,
    SymDiff_comm_equal (Set.New [0, 1, 2, 3] : Set Nat) (Set.New [1, 2, 3, 4, 5])
      (by decide) (by decide)⟩

/-- C10 as stated, at two inputs.  At s = o = New([]float64{NaN}),
s.Union(o).Equal(o.Union(s)) is false.  At s = New([1]) and o = New([1,2]),
whose lengths differ, the two calls do not seed the result from different
operands: both seed it from the set holding 1 and 2. -/
theorem Union_comm_counterexample :
    ¬ ((nanSet.Union nanSet).Equal (nanSet.Union nanSet) = true)
    ∧ (Set.unionOperands (Set.New [1] : Set Nat) (Set.New [1, 2])).1.inner.keys = [1, 2]
    ∧ (Set.unionOperands (Set.New [1, 2] : Set Nat) (Set.New [1])).1.inner.keys = [1, 2] := by
  decide

/-- C10, amended: for all sets s and o that hold no NaN (no element that is
not == to itself), s.Union(o).Equal(o.Union(s)) is true; with or without NaN
the two unions have the same Contains and the same Len.  When the lengths
differ both calls seed the result from the longer set, and on a tie each call
seeds it from its own receiver, s for s.Union(o) and o for o.Union(s). -/
theorem Union_comm_equal (s o : Set T) :
    (s.allSelfEq = true → o.allSelfEq = true → (s.Union o).Equal (o.Union s) = true)
    ∧ (∀ v, (s.Union o).Contains v = (o.Union s).Contains v)
    ∧ (s.Union o).Len = (o.Union s).Len
    ∧ (s.Len < o.Len → Set.unionOperands s o = (o, s) ∧ Set.unionOperands o s = (o, s))
    ∧ (o.Len < s.Len → Set.unionOperands s o = (s, o) ∧ Set.unionOperands o s = (s, o))
    ∧ (s.Len = o.Len → Set.unionOperands s o = (s, o) ∧ Set.unionOperands o s = (o, s)) := by
  have hfin : (s.Union o).toFinset = (o.Union s).toFinset := by
    rw [Set.toFinset_union, Set.toFinset_union, Finset.union_comm]
  have hnan : (s.Union o).nanCount = (o.Union s).nanCount := by
    rw [Set.nanCount_union, Set.nanCount_union, Nat.add_comm]
  refine ⟨?_, (Set.toFinset_eq_iff _ _).1 hfin, ?_, ?_, ?_, ?_⟩
  · intro hs ho
    have h0 : (s.Union o).nanCount = 0 := by
      rw [Set.nanCount_union, Set.nanCount_of_allSelfEq s hs, Set.nanCount_of_allSelfEq o ho]
    rw [Set.equal_iff_toFinset]
    exact ⟨h0, hnan ▸ h0, hfin⟩
  · rw [Set.len_eq, Set.len_eq, hfin, hnan]
  · intro h
    have h2 : ¬ o.Len < s.Len := by omega
    simp [Set.unionOperands, h, h2]
  · intro h
    have h2 : ¬ s.Len < o.Len := by omega
    simp [Set.unionOperands, h, h2]
  · intro h
    have h1 : ¬ s.Len < o.Len := by omega
    have h2 : ¬ o.Len < s.Len := by omega
    simp [Set.unionOperands, h1, h2]

/-- C10, amended, at s = New([1,2,3,4]) and o = New([3,4,5,6]): neither holds
a NaN, and s.Union(o).Equal(o.Union(s)) is true. -/
theorem Union_comm_equal_witness :
    ((Set.New [1, 2, 3, 4] : Set Nat).allSelfEq = true
      ∧ (Set.New [3, 4, 5, 6] : Set Nat).allSelfEq = true)
    ∧ ((Set.New [1, 2, 3, 4] : Set Nat).Union (Set.New [3, 4, 5, 6])).Equal
        ((Set.New [3, 4, 5, 6] : Set Nat).Union (Set.New [1, 2, 3, 4])) = true :=
  ⟨⟨by decide, by decide⟩,
    (Union_comm_equal (Set.New [1, 2, 3, 4] : Set Nat) (Set.New [3, 4, 5, 6])).1
      (by decide) (by decide)⟩

/-! ## Merge on pointers -/

/-- C13 as stated, at a and b the same set New([]float64{NaN}): a.Merge(b)
changes the length of b, since the Insert of the NaN that the loop visits adds
an entry to the set that the loop ranges over. -/
theorem Merge_nan_counterexample :
    ¬ (((nanHeap.Merge 0 0).cells 0).Len = (nanHeap.cells 0).Len)
    ∧ (nanHeap.cells 0).Len < ((nanHeap.Merge 0 0).cells 0).Len := by
  decide

/-- C13, amended: for all sets a and b, given by pointers that may be equal,
after a.Merge(b) the set a contains v exactly when a contained it before or b
contains it, and every set other than a is what it was.  When neither holds a
NaN (an element that is not == to itself), the length of a is the number of
distinct values of the two sets together.  When a and b are different sets, or
b holds no NaN, b is exactly what it was before the call, so its contents and
length are unchanged, and it does not change at any point of the loop that
ranges over it. -/
theorem Merge_spec (h : Heap T) (a b : Nat) (v : T) :
    (((h.Merge a b).cells a).Contains v = true
        ↔ ((h.cells a).Contains v = true ∨ (h.cells b).Contains v = true))
    ∧ ((h.cells a).allSelfEq = true → (h.cells b).allSelfEq = true →
        ((h.Merge a b).cells a).Len
          = ((h.cells a).inner.keys ++ (h.cells b).inner.keys).dedup.length)
    ∧ ((a ≠ b ∨ (h.cells b).allSelfEq = true) →
        (h.Merge a b).cells b = h.cells b
        ∧ ((h.Merge a b).cells b).Len = (h.cells b).Len
        ∧ (∀ w, ((h.Merge a b).cells b).Contains w = (h.cells b).Contains w)
        ∧ (∀ n, (h.insertAll a ((h.cells b).inner.keys.take n)).cells b = h.cells b))
    ∧ (∀ p, p ≠ a → (h.Merge a b).cells p = h.cells p) := by
  have ha : (h.Merge a b).cells a = (h.cells a).Merge (h.cells b) := by
    rw [Heap.merge_eq, Heap.write_cells_same]
  refine ⟨?_, ?_, ?_, ?_⟩
  · rw [ha, ← Set.mem_toFinset, Set.toFinset_merge, Finset.mem_union, Set.mem_toFinset,
      Set.mem_toFinset]
  · intro hsa hsb
    have hfa : (h.cells a).inner.keys.filter Comparable.selfEq = (h.cells a).inner.keys :=
      List.filter_eq_self.2 ((Set.allSelfEq_iff _).1 hsa)
    have hfb : (h.cells b).inner.keys.filter Comparable.selfEq = (h.cells b).inner.keys :=
      List.filter_eq_self.2 ((Set.allSelfEq_iff _).1 hsb)
    rw [ha, Set.len_eq, Set.nanCount_merge, Set.nanCount_of_allSelfEq _ hsa,
      Set.nanCount_of_allSelfEq _ hsb, Set.toFinset_merge, ← List.card_toFinset,
      List.toFinset_append]
    unfold Set.toFinset
    rw [hfa, hfb]
    rfl
  · intro hab
    have hloop : ∀ n, (h.insertAll a ((h.cells b).inner.keys.take n)).cells b = h.cells b := by
      intro n
      rw [Heap.insertAll_eq]
      by_cases hba : b = a
      · subst hba
        have hsb : (h.cells b).allSelfEq = true := by
          rcases hab with hne | hsb
          · exact absurd rfl hne
          · exact hsb
        have hall := (Set.allSelfEq_iff _).1 hsb
        rw [Heap.write_cells_same]
        refine Set.insertAll_of_contains _ _ (fun k hk => ?_)
        have hk2 : k ∈ (h.cells b).inner.keys := List.mem_of_mem_take hk
        exact (Set.contains_iff _ k).2 ⟨hk2, hall k hk2⟩
      · exact Heap.write_cells_ne h hba _
    have hb : (h.Merge a b).cells b = h.cells b := by
      have := hloop (h.cells b).inner.keys.length
      rwa [List.take_length] at this
    exact ⟨hb, by rw [hb], fun w => by rw [hb], hloop⟩
  · intro p hp
    rw [Heap.merge_eq]
    exact Heap.write_cells_ne h hp _

/-- C13, amended, at a and b the same set New([1,2,3]) of the example store:
it holds no NaN, and a.Merge(b) leaves it exactly as it was, with the length
that the distinct values of the two sets together give. -/
theorem Merge_spec_witness :
    ((0 : Nat) ≠ 0 ∨ (exampleHeap.cells 0).allSelfEq = true)
    ∧ (exampleHeap.Merge 0 0).cells 0 = exampleHeap.cells 0
    ∧ ((exampleHeap.Merge 0 0).cells 0).Len
        = ((exampleHeap.cells 0).inner.keys ++ (exampleHeap.cells 0).inner.keys).dedup.length :=
  ⟨Or.inr (by decide),
    ((Merge_spec exampleHeap 0 0 1).2.2.1 (Or.inr (by decide))).1,
    (Merge_spec exampleHeap 0 0 1).2.1 (by decide) (by decide)⟩

end Claims

end hashset
